import Mathlib

/-!
Shallow embedding of the arcade-physics subsystem of the Black engine
(`src/physics/arcade/Arcade.js`), together with spec-modelled definitions for
the collaborating classes (`Pair`, `RigidBody`, `Collider`, the pair pools)
whose sources are not part of this snapshot.  All numeric state is modelled
with `ℚ`.  JavaScript object identity is modelled with stable numeric ids:
bodies are identified by a `Nat`, colliders carry a `cid : Nat`, pairs are
identified by a `Nat` handed out by a counter (the pair pools recycle
objects, which is observationally the same as allocating a fresh identity,
since a released pair leaves every registry structure).
-/

namespace Black

/-- Two-dimensional vector over `ℚ`. -/
structure Vec2 where
  x : ℚ
  y : ℚ
deriving DecidableEq, Repr

/-- Modelled from the spec: collider local geometry, a kind tag {box, circle}
with box `x,y,width,height` and circle `x,y,radius` (the concrete
`BoxCollider`/`CircleCollider` classes are not in the snapshot). -/
inductive ColliderGeom where
  | box (x y w h : ℚ)
  | circle (x y r : ℚ)
deriving DecidableEq, Repr

/-- Modelled from the spec: a collider/shape, its stable numeric identity plus
its geometry.  The `mChanged` dirty flag is not modelled (colliders are
immutable values here; no claim mentions the flag). -/
structure Collider where
  cid : Nat
  geom : ColliderGeom
deriving DecidableEq, Repr

/-- Discriminates `collider instanceof BoxCollider`. -/
def isBox (c : Collider) : Bool :=
  match c.geom with
  | .box _ _ _ _ => true
  | .circle _ _ _ => false

/-- The three concrete pair kinds of the reference implementation. -/
inductive PairKind where
  | boxToBox
  | circleToCircle
  | boxToCircle
deriving DecidableEq, Repr

/-- Modelled from the spec: the state of one `Pair` object — shapes `a`/`b`
(canonically ordered so that for mixed kinds the box is the A side), owning
bodies, the in-collision flag, collision normal, overlap depth and the two
accumulated impulses.  `invMassSum` is the per-step effective-mass constant
computed by `preSolve`. -/
structure PairRec where
  kind : PairKind
  a : Collider
  b : Collider
  bodyA : Nat
  bodyB : Nat
  inCollision : Bool
  normal : Vec2
  overlap : ℚ
  normalImpulse : ℚ
  tangentImpulse : ℚ
  invMassSum : ℚ
deriving DecidableEq, Repr

/-- Modelled from the spec: `RigidBody` simulation state plus the pieces of
its game object that the arcade system reads: the default full-body collider
`body.mCollider`, the explicit collider cache
`body.gameObject.mCollidersCache`, and the per-body pair list `body.mPairs`
(pair ids). -/
structure Body where
  invMass : ℚ
  position : Vec2
  velocity : Vec2
  force : Vec2
  frictionAir : ℚ
  defaultCollider : Collider
  collidersCache : List Collider
  pairs : List Nat
deriving Repr

/-- The state owned by the `Arcade` system: active bodies `mBodies`, the
global pair list `mPairs`, the contact list `mContacts`, the hash index
`mPairsHash`, plus the world tunables.  `bodyOf`/`pairOf` give the heap of
body and pair objects; `nextPairId` is the allocation counter.
`unitsPerMeter` stands for the static `Pair.unitsPerMeter` scale, which is
not in the snapshot. -/
structure World where
  bodies : List Nat
  bodyOf : Nat → Body
  pairIds : List Nat
  pairOf : Nat → PairRec
  pairsHash : Nat × Nat → Option Nat
  contacts : List Nat
  nextPairId : Nat
  gravity : Vec2
  iterations : Nat
  unitsPerMeter : ℚ

/-- Point update of the body heap. -/
def World.setBody (w : World) (bid : Nat) (b : Body) : World :=
  { w with bodyOf := fun n => if n = bid then b else w.bodyOf n }

/-- Point update of the pair heap. -/
def World.setPair (w : World) (pid : Nat) (p : PairRec) : World :=
  { w with pairOf := fun n => if n = pid then p else w.pairOf n }

/-- Hash-index insertion, `this.mPairsHash[id] = pair`. -/
def World.hashInsert (w : World) (k : Nat × Nat) (pid : Nat) : World :=
  { w with pairsHash := fun q => if q = k then some pid else w.pairsHash q }

/-- Hash-index deletion, `delete this.mPairsHash[id]`. -/
def World.hashErase (w : World) (k : Nat × Nat) : World :=
  { w with pairsHash := fun q => if q = k then none else w.pairsHash q }

/-- JavaScript `list.splice(list.indexOf(x), 1)`: removes the first
occurrence of `x` when present; when `indexOf` returns `-1`, `splice(-1, 1)`
removes the last element of the array. -/
def spliceOut (l : List Nat) (x : Nat) : List Nat :=
  if x ∈ l then l.erase x else l.dropLast

/-- Canonical unordered id on raw collider ids: the smaller id first. -/
def kk (u v : Nat) : Nat × Nat :=
  if u ≤ v then (u, v) else (v, u)

/-- Modelled from the spec: `Pair.__id(a, b)` (the `Pair` class is not in the
snapshot) — a canonical unordered-pair identifier obtained by comparing the
two shapes' stable numeric ids and always putting the smaller first, so that
`(A,B)` and `(B,A)` hash identically. -/
def pairKey (a b : Collider) : Nat × Nat :=
  kk a.cid b.cid

/-- Modelled from the spec: a pair freshly obtained from its pool and
initialised via `set(shapeA, shapeB, bodyA, bodyB)`; a released pair has its
full state reset, so the solver fields start at zero. -/
def mkPairRec (k : PairKind) (a b : Collider) (bA bB : Nat) : PairRec :=
  { kind := k, a := a, b := b, bodyA := bA, bodyB := bB,
    inCollision := false, normal := ⟨0, 0⟩, overlap := 0,
    normalImpulse := 0, tangentImpulse := 0, invMassSum := 0 }

/-- The kind dispatch and the box-first reordering of `__addPair`: (box,box)
uses `BoxToBoxPair`, (circle,circle) uses `CircleToCirclePair`, a mixed
combination uses `BoxToCirclePair` with shapes and bodies swapped so that the
box is the A side. -/
def canonRec (a b : Collider) (bA bB : Nat) : PairRec :=
  if isBox a && isBox b then mkPairRec .boxToBox a b bA bB
  else if !isBox a && !isBox b then mkPairRec .circleToCircle a b bA bB
  else if isBox b then mkPairRec .boxToCircle b a bB bA
  else mkPairRec .boxToCircle a b bA bB

/-- `__addPair(a, b, bodyA, bodyB)`: build the pair (with the box-first
swap), push it onto `mPairs`, index it in `mPairsHash` under the canonical
unordered id of the (possibly swapped) shapes, and append it to both bodies'
pair lists. -/
def addPair (w : World) (a b : Collider) (bA bB : Nat) : World :=
  let p := canonRec a b bA bB
  let pid := w.nextPairId
  let w1 := w.setPair pid p
  let w2 := { w1 with pairIds := w1.pairIds ++ [pid], nextPairId := pid + 1 }
  let w3 := w2.hashInsert (pairKey p.a p.b) pid
  let w4 := w3.setBody p.bodyA
    { w3.bodyOf p.bodyA with pairs := (w3.bodyOf p.bodyA).pairs ++ [pid] }
  w4.setBody p.bodyB
    { w4.bodyOf p.bodyB with pairs := (w4.bodyOf p.bodyB).pairs ++ [pid] }

/-- The collider set a body currently exposes to pairing: the explicit cache
when non-empty, otherwise the implicit default full-body collider (this is
the `colliders.length === 0` branch appearing in `__addBody`, `__removeBody`
and `__addPairs`). -/
def World.collidersOf (w : World) (bid : Nat) : List Collider :=
  let b := w.bodyOf bid
  if b.collidersCache.isEmpty then [b.defaultCollider] else b.collidersCache

/-- Inner loop of `__addPairs`: pair `c` against every collider of one other
body. -/
def addPairAll (w : World) (c : Collider) (fromB bid : Nat) :
    List Collider → World
  | [] => w
  | c' :: rest => addPairAll (addPair w c c' fromB bid) c fromB bid rest

/-- Outer loop of `__addPairs` over the active body list, skipping
`fromBody`. -/
def addPairsGo (w : World) (c : Collider) (fromB : Nat) : List Nat → World
  | [] => w
  | bid :: rest =>
    if bid = fromB then addPairsGo w c fromB rest
    else addPairsGo (addPairAll w c fromB bid (w.collidersOf bid)) c fromB rest

/-- `__addPairs(collider, fromBody)`: generate pairs of the passed collider
with all colliders of all other currently active bodies (the body list does
not change while the loop runs, so it is read once). -/
def addPairs (w : World) (c : Collider) (fromB : Nat) : World :=
  addPairsGo w c fromB w.bodies

/-- Per-removed-pair bookkeeping of `__removePairs`: delete the hash entry
and splice the pair out of both owning bodies' pair lists via
`splice(indexOf(pair), 1)`. -/
def removePairCleanup (w : World) (pid : Nat) : World :=
  let p := w.pairOf pid
  let w1 := w.hashErase (pairKey p.a p.b)
  let w2 := w1.setBody p.bodyA
    { w1.bodyOf p.bodyA with pairs := spliceOut (w1.bodyOf p.bodyA).pairs pid }
  w2.setBody p.bodyB
    { w2.bodyOf p.bodyB with pairs := spliceOut (w2.bodyOf p.bodyB).pairs pid }

/-- Whether a maintained pair references the collider (`pair.a === collider
|| pair.b === collider`, object identity modelled by `cid`). -/
def pairTouches (w : World) (c : Collider) (pid : Nat) : Bool :=
  (w.pairOf pid).a.cid = c.cid || (w.pairOf pid).b.cid = c.cid

/-- `__removePairs(collider)`: walk `mPairs` from the back, splice out every
pair referencing the collider, release it to its pool, delete its hash entry
and splice it out of both bodies' pair lists.  The per-entry decision only
reads immutable pair fields, so the surviving list is a filter; the cleanup
steps run back to front as in the source. -/
def removePairs (w : World) (c : Collider) : World :=
  let removed := w.pairIds.filter (fun pid => pairTouches w c pid)
  let kept := w.pairIds.filter (fun pid => !(pairTouches w c pid))
  let w1 := removed.foldr (fun pid acc => removePairCleanup acc pid) w
  { w1 with pairIds := kept }

/-- Loop of `__addBody` over the body's explicit colliders. -/
def addBodyGo (w : World) (bid : Nat) : List Collider → World
  | [] => w
  | c :: rest => addBodyGo (addPairs w c bid) bid rest

/-- `__addBody(body)`: clear the body's pair list, generate pairs for each of
its colliders (its default collider when it has no explicit ones) against
every currently active body, then push the body onto `mBodies` — with no
guard against the body being active already. -/
def addBody (w : World) (bid : Nat) : World :=
  let cache := (w.bodyOf bid).collidersCache
  let w1 := w.setBody bid { w.bodyOf bid with pairs := [] }
  let w2 :=
    if cache.isEmpty then addPairs w1 (w1.bodyOf bid).defaultCollider bid
    else addBodyGo w1 bid cache
  { w2 with bodies := w2.bodies ++ [bid] }

/-- Loop of `__removeBody` over the body's explicit colliders. -/
def removeBodyGo (w : World) : List Collider → World
  | [] => w
  | c :: rest => removeBodyGo (removePairs w c) rest

/-- `__removeBody(body)`: remove every pair touching any of the body's
colliders (the default one when it has no explicit ones), clear the body's
pair list, then `mBodies.splice(mBodies.indexOf(body), 1)` — which removes
the last element when the body is not tracked. -/
def removeBody (w : World) (bid : Nat) : World :=
  let cache := (w.bodyOf bid).collidersCache
  let w1 :=
    if cache.isEmpty then removePairs w (w.bodyOf bid).defaultCollider
    else removeBodyGo w cache
  let w2 := w1.setBody bid { w1.bodyOf bid with pairs := [] }
  { w2 with bodies := spliceOut w2.bodies bid }

/-- The `child` argument of `__addCollider`/`__removeCollider`.  The call
site in `onComponentRemoved` passes the removed Collider component itself
instead of the game object, so the argument is either a game object (carrying
its optional `RigidBody`) or a collider. -/
inductive ChildArg where
  | node (obody : Option Nat)
  | colliderVal (c : Collider)

/-- Modelled from the spec: `child.getComponent(RigidBody)` on a game object
yields its rigid body when one is attached.  When `child` is a Collider (the
buggy one-argument call in `onComponentRemoved`), a collider exposes no
component lookup — in JavaScript the access faults — and the body lookup
yields nothing. -/
def getComponentRigidBody : ChildArg → Option Nat
  | .node obody => obody
  | .colliderVal _ => none

/-- `__addCollider(child, collider)`: only if the child has a `RigidBody`
that is currently in `mBodies`, generate pairs for the collider; when the
collider cache holds exactly one entry (this was the first explicit shape),
retire the default collider's pairs. -/
def addCollider (w : World) (child : ChildArg) (collider : Collider) : World :=
  match getComponentRigidBody child with
  | none => w
  | some bid =>
    if bid ∈ w.bodies then
      let w1 := addPairs w collider bid
      if (w1.bodyOf bid).collidersCache.length = 1 then
        removePairs w1 (w1.bodyOf bid).defaultCollider
      else w1
    else w

/-- `__removeCollider(child, collider)`: only if the child has a `RigidBody`
that is currently in `mBodies`, remove the collider's pairs (`collider` may
arrive as `undefined` through the one-argument call site, in which case the
identity tests `pair.a === collider` never hold and nothing is removed);
when the collider cache became empty, restore the default collider's pairs
through `__addCollider`. -/
def removeCollider (w : World) (child : ChildArg) (collider : Option Collider) :
    World :=
  match getComponentRigidBody child with
  | none => w
  | some bid =>
    if bid ∈ w.bodies then
      let w1 := match collider with
        | some c => removePairs w c
        | none => w
      if (w1.bodyOf bid).collidersCache.length = 0 then
        addCollider w1 child (w1.bodyOf bid).defaultCollider
      else w1
    else w

/-- `onComponentRemoved` for a Collider component: the source calls
`this.__removeCollider(component)` with a single argument, so `child`
receives the collider and `collider` is `undefined`. -/
def onColliderComponentRemoved (w : World) (c : Collider) : World :=
  removeCollider w (.colliderVal c) none

/-- Erasure of a collider from a game object's collider cache (performed by
the component system before `onComponentRemoved` fires); identity modelled
by `cid`. -/
def eraseCollider (l : List Collider) (c : Collider) : List Collider :=
  l.eraseP (fun c' => c'.cid = c.cid)

/-- The registry operations quantified over by the pair-uniqueness property:
attach/detach of a body and of an explicit shape on a live body. -/
inductive Op where
  | addBodyOp (bid : Nat)
  | removeBodyOp (bid : Nat)
  | addShapeOp (bid : Nat) (c : Collider)
  | removeShapeOp (bid : Nat) (c : Collider)

/-- One registry operation.  For the shape operations the component system
first mutates the game object's collider cache and then notifies the arcade
system, which runs `__addCollider`/`__removeCollider` with the game object
and the collider. -/
def applyOp (w : World) : Op → World
  | .addBodyOp bid => addBody w bid
  | .removeBodyOp bid => removeBody w bid
  | .addShapeOp bid c =>
    let w1 := w.setBody bid
      { w.bodyOf bid with collidersCache := (w.bodyOf bid).collidersCache ++ [c] }
    addCollider w1 (.node (some bid)) c
  | .removeShapeOp bid c =>
    let w1 := w.setBody bid
      { w.bodyOf bid with collidersCache := eraseCollider (w.bodyOf bid).collidersCache c }
    removeCollider w1 (.node (some bid)) (some c)

/-- A sequence of registry operations applied left to right. -/
def applyOps (w : World) : List Op → World
  | [] => w
  | op :: rest => applyOps (applyOp w op) rest

/-- Reading the nonexistent property `a` of a Collider: `colliderA.a` in
`collisionInfo` yields `undefined`, a Collider has no such field. -/
def colliderPropA (_c : Collider) : Option Collider := none

/-- Reading the nonexistent property `b` of a Collider: `colliderB.b` in
`collisionInfo` yields `undefined`. -/
def colliderPropB (_c : Collider) : Option Collider := none

/-- Modelled from the spec: `Pair.__id` applied to possibly-undefined
arguments — the id function reads the stable numeric ids of its two shapes,
so on `undefined` it faults and no usable key is produced. -/
def pairKeyOpt : Option Collider → Option Collider → Option (Nat × Nat)
  | some a, some b => some (pairKey a b)
  | _, _ => none

/-- `collisionInfo(colliderA, colliderB, cb, ctx, ...)`: look the pair up in
`mPairsHash` under `Pair.__id(colliderA.a, colliderB.b)` and, if it exists
and is in collision, invoke the callback with the sign-adjusted normal and
the overlap (`sign = pair.a === colliderA ? 1 : -1`).  The returned value is
the callback argument triple `(normalX, normalY, overlap)` when the callback
fires, `none` otherwise. -/
def collisionInfo (w : World) (cA cB : Collider) : Option (ℚ × ℚ × ℚ) :=
  match pairKeyOpt (colliderPropA cA) (colliderPropB cB) with
  | none => none
  | some k =>
    match w.pairsHash k with
    | none => none
    | some pid =>
      let p := w.pairOf pid
      if p.inCollision then
        let sign : ℚ := if p.a.cid = cA.cid then 1 else -1
        some (p.normal.x * sign, p.normal.y * sign, p.overlap)
      else none

/-- A pair that lets `inCollision(bodyA, bodyB)` stop its scan: it is in
collision and connects the two bodies in either order (`sign ≠ 0`). -/
def pairConnects (w : World) (bA bB : Nat) (pid : Nat) : Bool :=
  (w.pairOf pid).inCollision &&
    (((w.pairOf pid).bodyA = bA && (w.pairOf pid).bodyB = bB) ||
      ((w.pairOf pid).bodyA = bB && (w.pairOf pid).bodyB = bA))

/-- The callback arguments produced for a matching pair: normal multiplied
by the sign that orients it from `bodyA`'s collider to `bodyB`'s collider,
plus the overlap. -/
def scanArgs (w : World) (bA bB : Nat) (pid : Nat) : ℚ × ℚ × ℚ :=
  let p := w.pairOf pid
  let sign : ℚ := if p.bodyA = bA && p.bodyB = bB then 1 else -1
  (p.normal.x * sign, p.normal.y * sign, p.overlap)

/-- The scan loop of `inCollision`: walk the pair list, skip pairs not in
collision, compute the sign from the body order, skip on sign `0`, and stop
at the first match returning the callback arguments. -/
def inCollisionScan (w : World) (bA bB : Nat) : List Nat → Option (ℚ × ℚ × ℚ)
  | [] => none
  | pid :: rest =>
    let p := w.pairOf pid
    if !p.inCollision then inCollisionScan w bA bB rest
    else
      let sign : ℚ :=
        if p.bodyA = bA && p.bodyB = bB then 1
        else if p.bodyA = bB && p.bodyB = bA then -1
        else 0
      if sign = 0 then inCollisionScan w bA bB rest
      else some (p.normal.x * sign, p.normal.y * sign, p.overlap)

/-- `inCollision(bodyA, bodyB, cb?, ctx?, ...)` restricted to its observable
behaviour: the scan runs over `bodyA.mPairs` only; the result carries the
callback arguments of the first match when one exists. -/
def inCollisionQuery (w : World) (bA bB : Nat) : Option (ℚ × ℚ × ℚ) :=
  inCollisionScan w bA bB (w.bodyOf bA).pairs

/-- The boolean return value of `inCollision`. -/
def inCollisionBool (w : World) (bA bB : Nat) : Bool :=
  (inCollisionQuery w bA bB).isSome

/-- Clamp a rational into an interval. -/
def clampQ (v lo hi : ℚ) : ℚ :=
  max lo (min v hi)

/-- Modelled from the spec: each step the cached shape geometry is refreshed
from the owning node's transform before testing; here the world geometry is
the local geometry translated by the owning body's position. -/
def worldGeom (g : ColliderGeom) (p : Vec2) : ColliderGeom :=
  match g with
  | .box x y wd h => .box (x + p.x) (y + p.y) wd h
  | .circle x y r => .circle (x + p.x) (y + p.y) r

/-- Modelled from the spec: `Pair.test()` (the pair classes are not in the
snapshot).  Box-box is a separating-axis test on the two axes; circle-circle
compares squared distance with the squared radius sum; box-circle clamps the
circle center to the box.  Exactly-touching counts as not colliding.  On
overlap the flag, normal and depth are set; on no overlap only the flag is
cleared.  The normal points from the A side to the B side; because a unit
normal and a Euclidean depth need square roots, the circle cases store the
direction unnormalised and the depth as the positive difference of squares —
a positive rescaling that no theorem below depends on. -/
def testPairRec (posA posB : Vec2) (p : PairRec) : PairRec :=
  match worldGeom p.a.geom posA, worldGeom p.b.geom posB with
  | .box x1 y1 w1 h1, .box x2 y2 w2 h2 =>
    let ox := min (x1 + w1) (x2 + w2) - max x1 x2
    let oy := min (y1 + h1) (y2 + h2) - max y1 y2
    if 0 < ox ∧ 0 < oy then
      if ox ≤ oy then
        { p with inCollision := true, overlap := ox,
                 normal := ⟨if x1 + w1 / 2 ≤ x2 + w2 / 2 then 1 else -1, 0⟩ }
      else
        { p with inCollision := true, overlap := oy,
                 normal := ⟨0, if y1 + h1 / 2 ≤ y2 + h2 / 2 then 1 else -1⟩ }
    else { p with inCollision := false }
  | .circle x1 y1 r1, .circle x2 y2 r2 =>
    let dx := x2 - x1
    let dy := y2 - y1
    let d2 := dx * dx + dy * dy
    let rs := r1 + r2
    if d2 < rs * rs then
      { p with inCollision := true, overlap := rs * rs - d2,
               normal := if dx = 0 ∧ dy = 0 then ⟨1, 0⟩ else ⟨dx, dy⟩ }
    else { p with inCollision := false }
  | .box x1 y1 w1 h1, .circle cx cy r =>
    let px := clampQ cx x1 (x1 + w1)
    let py := clampQ cy y1 (y1 + h1)
    let dx := cx - px
    let dy := cy - py
    let d2 := dx * dx + dy * dy
    if d2 < r * r then
      { p with inCollision := true, overlap := r * r - d2,
               normal := if dx = 0 ∧ dy = 0 then ⟨1, 0⟩ else ⟨dx, dy⟩ }
    else { p with inCollision := false }
  | .circle cx cy r, .box x1 y1 w1 h1 =>
    let px := clampQ cx x1 (x1 + w1)
    let py := clampQ cy y1 (y1 + h1)
    let dx := cx - px
    let dy := cy - py
    let d2 := dx * dx + dy * dy
    if d2 < r * r then
      { p with inCollision := true, overlap := r * r - d2,
               normal := if dx = 0 ∧ dy = 0 then ⟨-1, 0⟩ else ⟨-dx, -dy⟩ }
    else { p with inCollision := false }

/-- The optimistic reset loop of `onFixedUpdate`: mark every maintained pair
as in collision before the narrow phase runs. -/
def markAllColliding (w : World) : List Nat → World
  | [] => w
  | pid :: rest =>
    markAllColliding (w.setPair pid { w.pairOf pid with inCollision := true }) rest

/-- The narrow-phase loop of `onFixedUpdate`:
`pairs[i].mInCollision && pairs[i].test()`. -/
def runTests (w : World) : List Nat → World
  | [] => w
  | pid :: rest =>
    let p := w.pairOf pid
    let w1 :=
      if p.inCollision then
        w.setPair pid
          (testPairRec (w.bodyOf p.bodyA).position (w.bodyOf p.bodyB).position p)
      else w
    runTests w1 rest

/-- The partition loop of `onFixedUpdate`: pairs in collision are pushed on
`mContacts`; pairs that failed the test get both accumulated impulses reset
to zero. -/
def resetSeparated (w : World) : List Nat → World
  | [] => w
  | pid :: rest =>
    let w1 :=
      if (w.pairOf pid).inCollision then { w with contacts := w.contacts ++ [pid] }
      else w.setPair pid
        { w.pairOf pid with normalImpulse := 0, tangentImpulse := 0 }
    resetSeparated w1 rest

/-- Velocity-integration loop of `__solve`: for every body with nonzero
inverse mass,
`velocity = (velocity + (force * invMass + gravity) * dt) * (1 - frictionAir)`
componentwise; bodies with inverse mass `0` are skipped by `continue`. -/
def integrateVelocities (w : World) (dt : ℚ) : List Nat → World
  | [] => w
  | bid :: rest =>
    let body := w.bodyOf bid
    let w1 :=
      if body.invMass = 0 then w
      else
        let damping := 1 - body.frictionAir
        w.setBody bid
          { body with velocity :=
              ⟨(body.velocity.x + (body.force.x * body.invMass + w.gravity.x) * dt) * damping,
               (body.velocity.y + (body.force.y * body.invMass + w.gravity.y) * dt) * damping⟩ }
    integrateVelocities w1 dt rest

/-- An impulse applied to a body: the velocity changes by the impulse
componentwise scaled by the body's own inverse mass (a body with inverse
mass `0` is unaffected). -/
def kickBody (b : Body) (e1 e2 : ℚ) : Body :=
  { b with velocity := ⟨b.velocity.x + e1 * b.invMass, b.velocity.y + e2 * b.invMass⟩ }

/-- A positional correction applied to a body: the position changes by the
correction componentwise scaled by the body's own inverse mass. -/
def moveBody (b : Body) (e1 e2 : ℚ) : Body :=
  { b with position := ⟨b.position.x + e1 * b.invMass, b.position.y + e2 * b.invMass⟩ }

/-- Modelled from the spec: `preSolve()` computes the per-step constants
needed by the impulse iterations — the combined inverse mass along the
normal. -/
def preSolvePair (w : World) (pid : Nat) : World :=
  let p := w.pairOf pid
  w.setPair pid
    { p with invMassSum := (w.bodyOf p.bodyA).invMass + (w.bodyOf p.bodyB).invMass }

/-- `preSolve` over the contact list. -/
def preSolveAll (w : World) : List Nat → World
  | [] => w
  | pid :: rest => preSolveAll (preSolvePair w pid) rest

/-- Modelled from the spec: `solveVelocity()` — one sequential (Gauss-Seidel)
impulse along the contact normal clamped so the accumulated normal impulse
stays non-negative, plus a secondary tangential impulse clamped by the
accumulated normal impulse, both accumulated into the pair; each body's
velocity changes by the impulse delta scaled by its own inverse mass, and
the impulse application is skipped when both bodies have zero inverse
mass. -/
def solveVelocityPair (w : World) (pid : Nat) : World :=
  let p := w.pairOf pid
  if p.invMassSum = 0 then w
  else
    let bA := w.bodyOf p.bodyA
    let bB := w.bodyOf p.bodyB
    let n := p.normal
    let rvx := bB.velocity.x - bA.velocity.x
    let rvy := bB.velocity.y - bA.velocity.y
    let vn := rvx * n.x + rvy * n.y
    let lam := -vn / p.invMassSum
    let newN := max 0 (p.normalImpulse + lam)
    let dN := newN - p.normalImpulse
    let tx := -n.y
    let ty := n.x
    let vt := rvx * tx + rvy * ty
    let lamT := -vt / p.invMassSum
    let newT := clampQ (p.tangentImpulse + lamT) (-newN) newN
    let dT := newT - p.tangentImpulse
    let w1 := w.setBody p.bodyA
      (kickBody bA (-(dN * n.x + dT * tx)) (-(dN * n.y + dT * ty)))
    let w2 := w1.setBody p.bodyB
      (kickBody (w1.bodyOf p.bodyB) (dN * n.x + dT * tx) (dN * n.y + dT * ty))
    w2.setPair pid { p with normalImpulse := newN, tangentImpulse := newT }

/-- One velocity-resolution pass over the contact list. -/
def solveVelocityAll (w : World) : List Nat → World
  | [] => w
  | pid :: rest => solveVelocityAll (solveVelocityPair w pid) rest

/-- The `iterations` velocity-resolution passes. -/
def solveVelocityRounds (w : World) : Nat → World
  | 0 => w
  | n + 1 => solveVelocityRounds (solveVelocityAll w w.contacts) n

/-- `body.mForce.set(0, 0)`: the force accumulator reset. -/
def resetForce (b : Body) : Body :=
  { b with force := ⟨0, 0⟩ }

/-- The position advance of the position-integration loop:
`position += velocity * dt * unitsPerMeter` componentwise. -/
def advanceBody (b : Body) (dt upm : ℚ) : Body :=
  { b with position :=
      ⟨b.position.x + b.velocity.x * dt * upm,
       b.position.y + b.velocity.y * dt * upm⟩ }

/-- Position-integration loop of `__solve`: the force accumulator is reset
for every body; then bodies with nonzero inverse mass advance by
`velocity * dt * unitsPerMeter`. -/
def integratePositions (w : World) (dt : ℚ) : List Nat → World
  | [] => w
  | bid :: rest =>
    let w1 := w.setBody bid (resetForce (w.bodyOf bid))
    let w2 :=
      if (w1.bodyOf bid).invMass = 0 then w1
      else w1.setBody bid (advanceBody (w1.bodyOf bid) dt w1.unitsPerMeter)
    integratePositions w2 dt rest

/-- Modelled from the spec: `solvePosition()` — nudge the two bodies apart
along the contact normal proportionally to the remaining penetration, each
body moving by its own inverse-mass share, skipping the application when
both bodies are static. -/
def solvePositionPair (w : World) (pid : Nat) : World :=
  let p := w.pairOf pid
  let bA := w.bodyOf p.bodyA
  let bB := w.bodyOf p.bodyB
  let invSum := bA.invMass + bB.invMass
  if invSum = 0 then w
  else
    let corr := p.overlap / invSum
    let w1 := w.setBody p.bodyA
      (moveBody bA (-(corr * p.normal.x)) (-(corr * p.normal.y)))
    w1.setBody p.bodyB
      (moveBody (w1.bodyOf p.bodyB) (corr * p.normal.x) (corr * p.normal.y))

/-- One position-correction pass over the contact list. -/
def solvePositionAll (w : World) : List Nat → World
  | [] => w
  | pid :: rest => solvePositionAll (solvePositionPair w pid) rest

/-- The `iterations` position-correction passes. -/
def solvePositionRounds (w : World) : Nat → World
  | 0 => w
  | n + 1 => solvePositionRounds (solvePositionAll w w.contacts) n

/-- `__solve(dt)`: velocity integration, `preSolve` per contact, the
velocity-resolution passes, position integration with force reset, then the
position-correction passes. -/
def solve (w : World) (dt : ℚ) : World :=
  let w1 := integrateVelocities w dt w.bodies
  let w2 := preSolveAll w1 w1.contacts
  let w3 := solveVelocityRounds w2 w2.iterations
  let w4 := integratePositions w3 dt w3.bodies
  solvePositionRounds w4 w4.iterations

/-- `onFixedUpdate(dt)`: clear `mContacts`, refresh body geometry (the
refresh is fused into `testPairRec`, which reads the current body
positions), optimistically mark every pair as in collision, run the narrow
phase, partition into contacts zeroing the impulses of separated pairs, and
solve. -/
def onFixedUpdate (w : World) (dt : ℚ) : World :=
  let w0 := { w with contacts := [] }
  let w1 := markAllColliding w0 w0.pairIds
  let w2 := runTests w1 w1.pairIds
  let w3 := resetSeparated w2 w2.pairIds
  solve w3 dt

/-- `n` consecutive fixed-update steps. -/
def stepN (w : World) (dt : ℚ) : Nat → World
  | 0 => w
  | n + 1 => stepN (onFixedUpdate w dt) dt n

/-- All collider ids a body owns: its default collider and its explicit
cache. -/
def bodyCids (w : World) (bid : Nat) : List Nat :=
  (w.bodyOf bid).defaultCollider.cid :: (w.bodyOf bid).collidersCache.map Collider.cid

/-- The collider ids owned by the currently active bodies. -/
def activeCids (w : World) : List Nat :=
  w.bodies.flatMap (bodyCids w)

/-- The collider ids a body currently exposes to pairing. -/
def pairedCids (w : World) (bid : Nat) : List Nat :=
  (w.collidersOf bid).map Collider.cid

/-- The canonical unordered shape-id key of a maintained pair. -/
def keyOfAt (w : World) (pid : Nat) : Nat × Nat :=
  pairKey (w.pairOf pid).a (w.pairOf pid).b

/-- The canonical keys of all maintained pairs, in `mPairs` order. -/
def pairKeys (w : World) : List (Nat × Nat) :=
  w.pairIds.map (keyOfAt w)

/-- At most one maintained pair per unordered shape combination. -/
def PairsUnique (w : World) : Prop :=
  (pairKeys w).Nodup

/-- No maintained pair references two shapes owned by the same active
body. -/
def NoSelfPairs (w : World) : Prop :=
  ∀ pid ∈ w.pairIds, ∀ bid ∈ w.bodies,
    ¬((w.pairOf pid).a.cid ∈ bodyCids w bid ∧ (w.pairOf pid).b.cid ∈ bodyCids w bid)

instance instDecPairsUnique (w : World) : Decidable (PairsUnique w) :=
  inferInstanceAs (Decidable (List.Nodup _))

instance instDecNoSelfPairs (w : World) : Decidable (NoSelfPairs w) :=
  inferInstanceAs (Decidable (∀ pid ∈ w.pairIds, ∀ bid ∈ w.bodies, ¬(_ ∧ _)))

/-- Preconditions of the registry operations, as the spec states them: a
body is added only when inactive (with well-formed, globally fresh collider
ids), removed only when active; a shape is attached to an active body under
a fresh id and detached only when it is one of the body's explicit
shapes. -/
def ValidOp (w : World) : Op → Prop
  | .addBodyOp bid =>
    bid ∉ w.bodies ∧ (bodyCids w bid).Nodup ∧ ∀ x ∈ bodyCids w bid, x ∉ activeCids w
  | .removeBodyOp bid => bid ∈ w.bodies
  | .addShapeOp bid c => bid ∈ w.bodies ∧ c.cid ∉ activeCids w
  | .removeShapeOp bid c => bid ∈ w.bodies ∧ c ∈ (w.bodyOf bid).collidersCache

instance instDecValidOp (w : World) (op : Op) : Decidable (ValidOp w op) :=
  match op with
  | .addBodyOp _ => inferInstanceAs (Decidable (_ ∧ _ ∧ _))
  | .removeBodyOp _ => inferInstanceAs (Decidable (_ ∈ _))
  | .addShapeOp _ _ => inferInstanceAs (Decidable (_ ∧ _))
  | .removeShapeOp _ _ => inferInstanceAs (Decidable (_ ∧ _))

/-- A sequence of operations each of which respects its precondition in the
state it runs in. -/
def ValidSeq (w : World) : List Op → Prop
  | [] => True
  | op :: rest => ValidOp w op ∧ ValidSeq (applyOp w op) rest

instance instDecValidSeq (w : World) (ops : List Op) : Decidable (ValidSeq w ops) :=
  match ops with
  | [] => inferInstanceAs (Decidable True)
  | op :: rest =>
    @instDecidableAnd _ _ (instDecValidOp w op) (instDecValidSeq (applyOp w op) rest)

/-- The empty registry: no active bodies, no pairs, an empty hash index; the
heap of bodies (their components, set up before they enter the world) is the
parameter.  Gravity `(0, 1000)` and `iterations = 1` are the constructor
defaults. -/
def emptyWorld (cfg : Nat → Body) : World :=
  { bodies := [], bodyOf := cfg, pairIds := [],
    pairOf := fun _ => mkPairRec .boxToBox ⟨0, .box 0 0 0 0⟩ ⟨0, .box 0 0 0 0⟩ 0 0,
    pairsHash := fun _ => none, contacts := [], nextPairId := 0,
    gravity := ⟨0, 1000⟩, iterations := 1, unitsPerMeter := 1 }

/-- The inductive invariant maintained by valid operation sequences: active
bodies are distinct, active collider ids are globally distinct, pair ids are
distinct and below the allocation counter, every maintained pair joins two
distinct active bodies through shapes they currently expose, and the
canonical keys are distinct. -/
structure Inv (w : World) : Prop where
  bodiesNd : w.bodies.Nodup
  cidsNd : (activeCids w).Nodup
  pidsNd : w.pairIds.Nodup
  pidsLt : ∀ pid ∈ w.pairIds, pid < w.nextPairId
  refs : ∀ pid ∈ w.pairIds,
    (w.pairOf pid).bodyA ∈ w.bodies ∧ (w.pairOf pid).bodyB ∈ w.bodies ∧
    (w.pairOf pid).bodyA ≠ (w.pairOf pid).bodyB ∧
    (w.pairOf pid).a.cid ∈ pairedCids w (w.pairOf pid).bodyA ∧
    (w.pairOf pid).b.cid ∈ pairedCids w (w.pairOf pid).bodyB
  keysNd : (pairKeys w).Nodup

/-- A demonstration body heap: body `n` owns the default circle collider of
id `n` and radius `10` centred at `(100·n, 0)`; body `0` is static
(inverse mass `0`), all others have inverse mass `1`. -/
def cfgDemo : Nat → Body := fun n =>
  { invMass := if n = 0 then 0 else 1,
    position := ⟨(n : ℚ) * 100, 0⟩, velocity := ⟨0, 0⟩, force := ⟨0, 0⟩,
    frictionAir := 0,
    defaultCollider := ⟨n, .circle 0 0 10⟩,
    collidersCache := [], pairs := [] }

/-- Collider of id `1`, a circle of radius `10`. -/
def cDemo1 : Collider := ⟨1, .circle 0 0 10⟩

/-- Collider of id `2`, a circle of radius `10`. -/
def cDemo2 : Collider := ⟨2, .circle 0 0 10⟩

/-- A registry holding one pair, currently in collision, between the
colliders of bodies `1` and `2`: overlap `5`, normal `(1, 0)`, properly
indexed in the hash under the canonical key `(1, 2)`. -/
def wColl : World :=
  { bodies := [1, 2],
    bodyOf := fun n =>
      { invMass := 1, position := ⟨(n : ℚ) * 15 - 15, 0⟩, velocity := ⟨0, 0⟩,
        force := ⟨0, 0⟩, frictionAir := 0,
        defaultCollider := ⟨n, .circle 0 0 10⟩,
        collidersCache := [], pairs := [0] },
    pairIds := [0],
    pairOf := fun _ =>
      { kind := .circleToCircle, a := cDemo1, b := cDemo2, bodyA := 1, bodyB := 2,
        inCollision := true, normal := ⟨1, 0⟩, overlap := 5,
        normalImpulse := 0, tangentImpulse := 0, invMassSum := 2 },
    pairsHash := fun k => if k = (1, 2) then some 0 else none,
    contacts := [], nextPairId := 1,
    gravity := ⟨0, 1000⟩, iterations := 1, unitsPerMeter := 1 }

/-- A registry holding one stale pair between two widely separated circle
bodies (centres `100` and `200` apart on the x axis, radii `10`): the pair
still carries nonzero accumulated impulses from an earlier contact. -/
def wSep : World :=
  { bodies := [1, 2],
    bodyOf := fun n =>
      { invMass := 1, position := ⟨(n : ℚ) * 100, 0⟩, velocity := ⟨0, 0⟩,
        force := ⟨0, 0⟩, frictionAir := 0,
        defaultCollider := ⟨n, .circle 0 0 10⟩,
        collidersCache := [], pairs := [0] },
    pairIds := [0],
    pairOf := fun _ =>
      { kind := .circleToCircle, a := cDemo1, b := cDemo2, bodyA := 1, bodyB := 2,
        inCollision := true, normal := ⟨1, 0⟩, overlap := 5,
        normalImpulse := 7, tangentImpulse := 3, invMassSum := 2 },
    pairsHash := fun k => if k = (1, 2) then some 0 else none,
    contacts := [], nextPairId := 1,
    gravity := ⟨0, 0⟩, iterations := 1, unitsPerMeter := 1 }

/-- A registry holding a static body `0` in resting contact with a dynamic
body `1` (circle centres `15` apart, radii `10`), the pair in collision. -/
def wMix : World :=
  { bodies := [0, 1],
    bodyOf := fun n =>
      { invMass := if n = 0 then 0 else 1,
        position := ⟨(n : ℚ) * 15, 0⟩, velocity := ⟨0, 0⟩, force := ⟨0, 0⟩,
        frictionAir := 0,
        defaultCollider := ⟨n, .circle 0 0 10⟩,
        collidersCache := [], pairs := [0] },
    pairIds := [0],
    pairOf := fun _ =>
      { kind := .circleToCircle, a := ⟨0, .circle 0 0 10⟩, b := cDemo1,
        bodyA := 0, bodyB := 1, inCollision := true, normal := ⟨1, 0⟩,
        overlap := 5, normalImpulse := 0, tangentImpulse := 0, invMassSum := 1 },
    pairsHash := fun k => if k = (0, 1) then some 0 else none,
    contacts := [], nextPairId := 1,
    gravity := ⟨0, 0⟩, iterations := 1, unitsPerMeter := 1 }

/-- The velocity update the velocity-integration loop applies to one body
(identity on bodies with inverse mass `0`). -/
def integBody (g : Vec2) (dt : ℚ) (b : Body) : Body :=
  if b.invMass = 0 then b
  else
    { b with velocity :=
        ⟨(b.velocity.x + (b.force.x * b.invMass + g.x) * dt) * (1 - b.frictionAir),
         (b.velocity.y + (b.force.y * b.invMass + g.y) * dt) * (1 - b.frictionAir)⟩ }

/-- Worlds agreeing on the active body list and on every body's shape data
(collider cache and default collider); the pair bookkeeping only writes pair
state and per-body pair lists, so it preserves this relation. -/
def SameShapes (w w' : World) : Prop :=
  w'.bodies = w.bodies ∧
  ∀ n, (w'.bodyOf n).collidersCache = (w.bodyOf n).collidersCache ∧
    (w'.bodyOf n).defaultCollider = (w.bodyOf n).defaultCollider

/-!
Theorems.
-/

/-- C3: refuted on the code.  `collisionInfo` computes its hash key from
`colliderA.a` and `colliderB.b` — properties that do not exist on colliders —
instead of from the colliders themselves, so the O(1) lookup can never find
the maintained pair and the callback is never invoked, for any registry state
and any pair of colliders. -/
theorem collisionInfo_never_fires (w : World) (cA cB : Collider) :
    collisionInfo w cA cB = none := rfl

/-- C4: at a concrete registry state whose single pair is in collision and
properly indexed, both `collisionInfo(A, B, …)` and `collisionInfo(B, A, …)`
fail to invoke the callback, because of the `colliderA.a`/`colliderB.b` key
bug; the claimed symmetric reports never happen. -/
theorem collisionInfo_not_symmetric_on_colliding_pair :
    (wColl.pairOf 0).inCollision = true ∧
    wColl.pairsHash (pairKey cDemo1 cDemo2) = some 0 ∧
    collisionInfo wColl cDemo1 cDemo2 = none ∧
    collisionInfo wColl cDemo2 cDemo1 = none := by
  refine ⟨rfl, ?_, rfl, rfl⟩
  decide

/-- C8: refuted on the code.  `onComponentRemoved` calls
`__removeCollider(component)` with a single argument, so the `child`
parameter receives the collider itself; a collider has no `RigidBody`
component lookup, the guard fails, and the handler leaves the registry
completely unchanged — the removed collider's pairs are never torn down and
the default shape's pairs are never restored. -/
theorem collider_removal_handler_is_inert (w : World) (c : Collider) :
    onColliderComponentRemoved w c = w := rfl

/-- C10: adding or removing a Collider component on a game object that has
no `RigidBody`, or whose `RigidBody` is not in the active body list, leaves
the world — in particular the whole pair registry — unchanged. -/
theorem collider_ops_without_active_body_noop (w : World) (obody : Option Nat)
    (c : Collider) (h : ∀ bid, obody = some bid → bid ∉ w.bodies) :
    addCollider w (.node obody) c = w ∧
      removeCollider w (.node obody) (some c) = w := by
  cases obody with
  | none => exact ⟨rfl, rfl⟩
  | some bid =>
    have hb : bid ∉ w.bodies := h bid rfl
    refine ⟨?_, ?_⟩
    · simp [addCollider, getComponentRigidBody, hb]
    · simp [removeCollider, getComponentRigidBody, hb]

/-- Witness for C10 at a concrete world and collider. -/
theorem collider_ops_without_active_body_noop_w :
    addCollider (emptyWorld cfgDemo) (.node (some 5)) cDemo1 = emptyWorld cfgDemo ∧
      removeCollider (emptyWorld cfgDemo) (.node (some 5)) (some cDemo1) =
        emptyWorld cfgDemo :=
  collider_ops_without_active_body_noop (emptyWorld cfgDemo) (some 5) cDemo1
    (fun bid h => by cases h; decide)

/-- C7: refuted on the code.  Starting from a registry whose only active
body is `1`, removing the untracked body `2` executes
`mBodies.splice(mBodies.indexOf(body), 1)` with `indexOf` returning `-1`,
which removes the LAST active body: the active-body list ends up empty, so
the operation is not a no-op and corrupts the registry. -/
theorem removeBody_untracked_removes_last_body :
    (addBody (emptyWorld cfgDemo) 1).bodies = [1] ∧
    2 ∉ (addBody (emptyWorld cfgDemo) 1).bodies ∧
    (removeBody (addBody (emptyWorld cfgDemo) 1) 2).bodies = [] := by
  decide

theorem bodyOf_setBody (w : World) (bid : Nat) (b : Body) (n : Nat) :
    (w.setBody bid b).bodyOf n = if n = bid then b else w.bodyOf n := rfl

theorem integrateVelocities_charact (dt : ℚ) (bid : Nat) :
    ∀ (l : List Nat) (w : World), l.Nodup →
      (integrateVelocities w dt l).bodyOf bid =
        if bid ∈ l then integBody w.gravity dt (w.bodyOf bid) else w.bodyOf bid
  | [], w, _ => by simp [integrateVelocities]
  | b :: rest, w, hnd => by
    have hnd' : rest.Nodup := (List.nodup_cons.mp hnd).2
    have hb : b ∉ rest := (List.nodup_cons.mp hnd).1
    show (integrateVelocities
        (if (w.bodyOf b).invMass = 0 then w
         else w.setBody b _) dt rest).bodyOf bid = _
    by_cases h0 : (w.bodyOf b).invMass = 0
    · rw [if_pos h0, integrateVelocities_charact dt bid rest w hnd']
      by_cases hmem : bid ∈ rest
      · rw [if_pos hmem, if_pos (List.mem_cons_of_mem b hmem)]
      · rw [if_neg hmem]
        by_cases hbid : bid = b
        · subst hbid
          rw [if_pos (List.mem_cons_self bid rest), integBody, if_pos h0]
        · rw [if_neg (by simp [hbid, hmem])]
    · rw [if_neg h0, integrateVelocities_charact dt bid rest _ hnd']
      have hgrav : (w.setBody b (integBody w.gravity dt (w.bodyOf b))).gravity
          = w.gravity := rfl
      have hrec : w.setBody b
            { w.bodyOf b with velocity :=
                ⟨((w.bodyOf b).velocity.x + ((w.bodyOf b).force.x * (w.bodyOf b).invMass + w.gravity.x) * dt) * (1 - (w.bodyOf b).frictionAir),
                 ((w.bodyOf b).velocity.y + ((w.bodyOf b).force.y * (w.bodyOf b).invMass + w.gravity.y) * dt) * (1 - (w.bodyOf b).frictionAir)⟩ }
          = w.setBody b (integBody w.gravity dt (w.bodyOf b)) := by
        rw [integBody, if_neg h0]
      rw [hrec]
      by_cases hbid : bid = b
      · subst hbid
        rw [if_neg hb, if_pos (List.mem_cons_self bid rest)]
        simp [World.setBody]
      · rw [bodyOf_setBody, if_neg hbid]
        by_cases hmem : bid ∈ rest
        · rw [if_pos hmem, if_pos (List.mem_cons_of_mem b hmem)]
          rfl
        · rw [if_neg hmem, if_neg (by simp [hbid, hmem])]

/-- C5: the velocity-integration phase maps every body with nonzero inverse
mass to `velocity = (velocity + (force * invMass + gravity) * dt) *
(1 - frictionAir)` componentwise, and leaves bodies with inverse mass `0`
completely untouched. -/
theorem velocity_integration_spec (w : World) (dt : ℚ) (bid : Nat)
    (hnd : w.bodies.Nodup) (hmem : bid ∈ w.bodies) :
    ((w.bodyOf bid).invMass ≠ 0 →
      ((integrateVelocities w dt w.bodies).bodyOf bid).velocity =
        ⟨((w.bodyOf bid).velocity.x +
            ((w.bodyOf bid).force.x * (w.bodyOf bid).invMass + w.gravity.x) * dt) *
            (1 - (w.bodyOf bid).frictionAir),
          ((w.bodyOf bid).velocity.y +
            ((w.bodyOf bid).force.y * (w.bodyOf bid).invMass + w.gravity.y) * dt) *
            (1 - (w.bodyOf bid).frictionAir)⟩) ∧
    ((w.bodyOf bid).invMass = 0 →
      (integrateVelocities w dt w.bodies).bodyOf bid = w.bodyOf bid) := by
  rw [integrateVelocities_charact dt bid w.bodies w hnd, if_pos hmem]
  constructor
  · intro h0
    rw [integBody, if_neg h0]
  · intro h0
    rw [integBody, if_pos h0]

/-- Witness for C5 at a concrete world: body `1` of `wColl` is dynamic. -/
theorem velocity_integration_spec_w :
    ((wColl.bodyOf 1).invMass ≠ 0 →
      ((integrateVelocities wColl 1 wColl.bodies).bodyOf 1).velocity =
        ⟨((wColl.bodyOf 1).velocity.x +
            ((wColl.bodyOf 1).force.x * (wColl.bodyOf 1).invMass + wColl.gravity.x) * 1) *
            (1 - (wColl.bodyOf 1).frictionAir),
          ((wColl.bodyOf 1).velocity.y +
            ((wColl.bodyOf 1).force.y * (wColl.bodyOf 1).invMass + wColl.gravity.y) * 1) *
            (1 - (wColl.bodyOf 1).frictionAir)⟩) ∧
    ((wColl.bodyOf 1).invMass = 0 →
      (integrateVelocities wColl 1 wColl.bodies).bodyOf 1 = wColl.bodyOf 1) :=
  velocity_integration_spec wColl 1 1 (by decide) (by decide)

theorem bodyOf_markAllColliding :
    ∀ (l : List Nat) (w : World), (markAllColliding w l).bodyOf = w.bodyOf
  | [], _ => rfl
  | _ :: rest, w => bodyOf_markAllColliding rest _

theorem bodyOf_runTests :
    ∀ (l : List Nat) (w : World), (runTests w l).bodyOf = w.bodyOf
  | [], _ => rfl
  | pid :: rest, w => by
    rw [runTests]
    split
    · exact bodyOf_runTests rest _
    · exact bodyOf_runTests rest _

theorem bodyOf_resetSeparated :
    ∀ (l : List Nat) (w : World), (resetSeparated w l).bodyOf = w.bodyOf
  | [], _ => rfl
  | pid :: rest, w => by
    rw [resetSeparated]
    split
    · exact bodyOf_resetSeparated rest _
    · exact bodyOf_resetSeparated rest _

theorem bodyOf_preSolveAll :
    ∀ (l : List Nat) (w : World), (preSolveAll w l).bodyOf = w.bodyOf
  | [], _ => rfl
  | _ :: rest, w => bodyOf_preSolveAll rest _

theorem integrateVelocities_frozen (dt : ℚ) (n : Nat) :
    ∀ (l : List Nat) (w : World), (w.bodyOf n).invMass = 0 →
      (integrateVelocities w dt l).bodyOf n = w.bodyOf n
  | [], _, _ => rfl
  | bid :: rest, w, h => by
    rw [integrateVelocities]
    by_cases h0 : (w.bodyOf bid).invMass = 0
    · rw [if_pos h0]
      exact integrateVelocities_frozen dt n rest w h
    · rw [if_neg h0]
      have hbid : ¬n = bid := fun he => h0 (he ▸ h)
      have hkeep : (w.setBody bid
          { w.bodyOf bid with velocity :=
              ⟨((w.bodyOf bid).velocity.x + ((w.bodyOf bid).force.x * (w.bodyOf bid).invMass + w.gravity.x) * dt) * (1 - (w.bodyOf bid).frictionAir),
               ((w.bodyOf bid).velocity.y + ((w.bodyOf bid).force.y * (w.bodyOf bid).invMass + w.gravity.y) * dt) * (1 - (w.bodyOf bid).frictionAir)⟩ }).bodyOf n
          = w.bodyOf n := by
        rw [bodyOf_setBody, if_neg hbid]
      rw [integrateVelocities_frozen dt n rest _ (by rw [hkeep]; exact h), hkeep]

theorem kickBody_invMass (b : Body) (e1 e2 : ℚ) :
    (kickBody b e1 e2).invMass = b.invMass := rfl

theorem kickBody_static (b : Body) (e1 e2 : ℚ) (h : b.invMass = 0) :
    kickBody b e1 e2 = b := by
  cases b with
  | mk invMass position velocity force frictionAir defaultCollider collidersCache pairs =>
    cases velocity
    simp only at h
    simp [kickBody, h]

theorem moveBody_invMass (b : Body) (e1 e2 : ℚ) :
    (moveBody b e1 e2).invMass = b.invMass := rfl

theorem moveBody_static (b : Body) (e1 e2 : ℚ) (h : b.invMass = 0) :
    moveBody b e1 e2 = b := by
  cases b with
  | mk invMass position velocity force frictionAir defaultCollider collidersCache pairs =>
    cases position
    simp only at h
    simp [moveBody, h]

theorem twoKicks_bodyOf_static (w : World) (pA pB n : Nat)
    (e1 e2 e3 e4 : ℚ) (h : (w.bodyOf n).invMass = 0) :
    (((w.setBody pA (kickBody (w.bodyOf pA) e1 e2)).setBody pB
        (kickBody ((w.setBody pA (kickBody (w.bodyOf pA) e1 e2)).bodyOf pB) e3 e4)).bodyOf n)
      = w.bodyOf n := by
  rw [bodyOf_setBody]
  by_cases hB : n = pB
  · rw [if_pos hB, ← hB, bodyOf_setBody]
    by_cases hA : n = pA
    · rw [if_pos hA, ← hA, kickBody_static _ _ _ h, kickBody_static _ _ _ h]
    · rw [if_neg hA, kickBody_static _ _ _ h]
  · rw [if_neg hB, bodyOf_setBody]
    by_cases hA : n = pA
    · rw [if_pos hA, ← hA, kickBody_static _ _ _ h]
    · rw [if_neg hA]

theorem solveVelocityPair_staticBody (w : World) (pid n : Nat)
    (h : (w.bodyOf n).invMass = 0) :
    (solveVelocityPair w pid).bodyOf n = w.bodyOf n := by
  rw [solveVelocityPair]
  split
  · rfl
  · exact twoKicks_bodyOf_static w (w.pairOf pid).bodyA (w.pairOf pid).bodyB n _ _ _ _ h

theorem solveVelocityPair_frozen (w : World) (pid n : Nat)
    (h : (w.bodyOf n).invMass = 0) :
    ((solveVelocityPair w pid).bodyOf n).velocity = (w.bodyOf n).velocity ∧
    ((solveVelocityPair w pid).bodyOf n).position = (w.bodyOf n).position ∧
    ((solveVelocityPair w pid).bodyOf n).invMass = 0 := by
  rw [solveVelocityPair_staticBody w pid n h]
  exact ⟨rfl, rfl, h⟩

theorem solveVelocityAll_frozen (n : Nat) :
    ∀ (l : List Nat) (w : World), (w.bodyOf n).invMass = 0 →
      ((solveVelocityAll w l).bodyOf n).velocity = (w.bodyOf n).velocity ∧
      ((solveVelocityAll w l).bodyOf n).position = (w.bodyOf n).position ∧
      ((solveVelocityAll w l).bodyOf n).invMass = 0
  | [], _, h => ⟨rfl, rfl, h⟩
  | pid :: rest, w, h =>
    have h1 := solveVelocityPair_frozen w pid n h
    have h2 := solveVelocityAll_frozen n rest (solveVelocityPair w pid) h1.2.2
    ⟨h2.1.trans h1.1, h2.2.1.trans h1.2.1, h2.2.2⟩

theorem solveVelocityRounds_frozen (n : Nat) :
    ∀ (k : Nat) (w : World), (w.bodyOf n).invMass = 0 →
      ((solveVelocityRounds w k).bodyOf n).velocity = (w.bodyOf n).velocity ∧
      ((solveVelocityRounds w k).bodyOf n).position = (w.bodyOf n).position ∧
      ((solveVelocityRounds w k).bodyOf n).invMass = 0
  | 0, _, h => ⟨rfl, rfl, h⟩
  | k + 1, w, h =>
    have h1 := solveVelocityAll_frozen n w.contacts w h
    have h2 := solveVelocityRounds_frozen n k (solveVelocityAll w w.contacts) h1.2.2
    ⟨h2.1.trans h1.1, h2.2.1.trans h1.2.1, h2.2.2⟩

theorem resetForce_fields (b : Body) :
    (resetForce b).invMass = b.invMass ∧ (resetForce b).velocity = b.velocity ∧
      (resetForce b).position = b.position := ⟨rfl, rfl, rfl⟩

theorem integratePositions_frozen (dt : ℚ) (n : Nat) :
    ∀ (l : List Nat) (w : World), (w.bodyOf n).invMass = 0 →
      ((integratePositions w dt l).bodyOf n).velocity = (w.bodyOf n).velocity ∧
      ((integratePositions w dt l).bodyOf n).position = (w.bodyOf n).position ∧
      ((integratePositions w dt l).bodyOf n).invMass = 0
  | [], _, h => ⟨rfl, rfl, h⟩
  | bid :: rest, w, h => by
    rw [integratePositions]
    by_cases hbid : n = bid
    · subst hbid
      have hforce : ((w.setBody n (resetForce (w.bodyOf n))).bodyOf n)
          = resetForce (w.bodyOf n) := by
        rw [bodyOf_setBody, if_pos rfl]
      rw [if_pos (by rw [hforce]; exact h)]
      have := integratePositions_frozen dt n rest
        (w.setBody n (resetForce (w.bodyOf n))) (by rw [hforce]; exact h)
      rw [hforce] at this
      exact this
    · have hforce : ((w.setBody bid (resetForce (w.bodyOf bid))).bodyOf n)
          = w.bodyOf n := by
        rw [bodyOf_setBody, if_neg hbid]
      split
      · have := integratePositions_frozen dt n rest
          (w.setBody bid (resetForce (w.bodyOf bid))) (by rw [hforce]; exact h)
        rw [hforce] at this
        exact this
      · have hpos : (((w.setBody bid (resetForce (w.bodyOf bid))).setBody bid
            (advanceBody ((w.setBody bid (resetForce (w.bodyOf bid))).bodyOf bid) dt
              (w.setBody bid (resetForce (w.bodyOf bid))).unitsPerMeter)).bodyOf n)
            = w.bodyOf n := by
          rw [bodyOf_setBody, if_neg hbid, bodyOf_setBody, if_neg hbid]
        have := integratePositions_frozen dt n rest _ (by rw [hpos]; exact h)
        rw [hpos] at this
        exact this

theorem twoMoves_bodyOf_static (w : World) (pA pB n : Nat)
    (e1 e2 e3 e4 : ℚ) (h : (w.bodyOf n).invMass = 0) :
    (((w.setBody pA (moveBody (w.bodyOf pA) e1 e2)).setBody pB
        (moveBody ((w.setBody pA (moveBody (w.bodyOf pA) e1 e2)).bodyOf pB) e3 e4)).bodyOf n)
      = w.bodyOf n := by
  rw [bodyOf_setBody]
  by_cases hB : n = pB
  · rw [if_pos hB, ← hB, bodyOf_setBody]
    by_cases hA : n = pA
    · rw [if_pos hA, ← hA, moveBody_static _ _ _ h, moveBody_static _ _ _ h]
    · rw [if_neg hA, moveBody_static _ _ _ h]
  · rw [if_neg hB, bodyOf_setBody]
    by_cases hA : n = pA
    · rw [if_pos hA, ← hA, moveBody_static _ _ _ h]
    · rw [if_neg hA]

theorem solvePositionPair_staticBody (w : World) (pid n : Nat)
    (h : (w.bodyOf n).invMass = 0) :
    (solvePositionPair w pid).bodyOf n = w.bodyOf n := by
  rw [solvePositionPair]
  split
  · rfl
  · exact twoMoves_bodyOf_static w (w.pairOf pid).bodyA (w.pairOf pid).bodyB n _ _ _ _ h

theorem solvePositionPair_frozen (w : World) (pid n : Nat)
    (h : (w.bodyOf n).invMass = 0) :
    ((solvePositionPair w pid).bodyOf n).velocity = (w.bodyOf n).velocity ∧
    ((solvePositionPair w pid).bodyOf n).position = (w.bodyOf n).position ∧
    ((solvePositionPair w pid).bodyOf n).invMass = 0 := by
  rw [solvePositionPair_staticBody w pid n h]
  exact ⟨rfl, rfl, h⟩

theorem solvePositionAll_frozen (n : Nat) :
    ∀ (l : List Nat) (w : World), (w.bodyOf n).invMass = 0 →
      ((solvePositionAll w l).bodyOf n).velocity = (w.bodyOf n).velocity ∧
      ((solvePositionAll w l).bodyOf n).position = (w.bodyOf n).position ∧
      ((solvePositionAll w l).bodyOf n).invMass = 0
  | [], _, h => ⟨rfl, rfl, h⟩
  | pid :: rest, w, h =>
    have h1 := solvePositionPair_frozen w pid n h
    have h2 := solvePositionAll_frozen n rest (solvePositionPair w pid) h1.2.2
    ⟨h2.1.trans h1.1, h2.2.1.trans h1.2.1, h2.2.2⟩

theorem solvePositionRounds_frozen (n : Nat) :
    ∀ (k : Nat) (w : World), (w.bodyOf n).invMass = 0 →
      ((solvePositionRounds w k).bodyOf n).velocity = (w.bodyOf n).velocity ∧
      ((solvePositionRounds w k).bodyOf n).position = (w.bodyOf n).position ∧
      ((solvePositionRounds w k).bodyOf n).invMass = 0
  | 0, _, h => ⟨rfl, rfl, h⟩
  | k + 1, w, h =>
    have h1 := solvePositionAll_frozen n w.contacts w h
    have h2 := solvePositionRounds_frozen n k (solvePositionAll w w.contacts) h1.2.2
    ⟨h2.1.trans h1.1, h2.2.1.trans h1.2.1, h2.2.2⟩

theorem solve_frozen (w : World) (dt : ℚ) (n : Nat)
    (h : (w.bodyOf n).invMass = 0) :
    ((solve w dt).bodyOf n).velocity = (w.bodyOf n).velocity ∧
    ((solve w dt).bodyOf n).position = (w.bodyOf n).position ∧
    ((solve w dt).bodyOf n).invMass = 0 := by
  rw [solve]
  have e1 := integrateVelocities_frozen dt n w.bodies w h
  set w1 := integrateVelocities w dt w.bodies with hw1
  have h1 : (w1.bodyOf n).invMass = 0 := by rw [e1]; exact h
  have e2 := congrFun (bodyOf_preSolveAll w1.contacts w1) n
  set w2 := preSolveAll w1 w1.contacts with hw2
  have h2 : (w2.bodyOf n).invMass = 0 := by rw [e2]; exact h1
  have h3 := solveVelocityRounds_frozen n w2.iterations w2 h2
  set w3 := solveVelocityRounds w2 w2.iterations with hw3
  have h4 := integratePositions_frozen dt n w3.bodies w3 h3.2.2
  set w4 := integratePositions w3 dt w3.bodies with hw4
  have h5 := solvePositionRounds_frozen n w4.iterations w4 h4.2.2
  refine ⟨?_, ?_, h5.2.2⟩
  · rw [h5.1, h4.1, h3.1, e2, e1]
  · rw [h5.2.1, h4.2.1, h3.2.1, e2, e1]

theorem onFixedUpdate_frozen (w : World) (dt : ℚ) (n : Nat)
    (h : (w.bodyOf n).invMass = 0) :
    ((onFixedUpdate w dt).bodyOf n).velocity = (w.bodyOf n).velocity ∧
    ((onFixedUpdate w dt).bodyOf n).position = (w.bodyOf n).position ∧
    ((onFixedUpdate w dt).bodyOf n).invMass = 0 := by
  rw [onFixedUpdate]
  set w0 : World := { w with contacts := ([] : List Nat) } with hw0
  have e0 : w0.bodyOf = w.bodyOf := rfl
  have e1 := congrFun (bodyOf_markAllColliding w0.pairIds w0) n
  rw [e0] at e1
  set wm := markAllColliding w0 w0.pairIds with hwm
  have e2 := congrFun (bodyOf_runTests wm.pairIds wm) n
  set wt := runTests wm wm.pairIds with hwt
  have e3 := congrFun (bodyOf_resetSeparated wt.pairIds wt) n
  set wr := resetSeparated wt wt.pairIds with hwr
  have hsolve := solve_frozen wr dt n (by rw [e3, e2, e1]; exact h)
  refine ⟨?_, ?_, hsolve.2.2⟩
  · rw [hsolve.1, e3, e2, e1]
  · rw [hsolve.2.1, e3, e2, e1]

theorem stepN_frozen (dt : ℚ) (n : Nat) :
    ∀ (k : Nat) (w : World), (w.bodyOf n).invMass = 0 →
      ((stepN w dt k).bodyOf n).velocity = (w.bodyOf n).velocity ∧
      ((stepN w dt k).bodyOf n).position = (w.bodyOf n).position ∧
      ((stepN w dt k).bodyOf n).invMass = 0
  | 0, _, h => ⟨rfl, rfl, h⟩
  | k + 1, w, h =>
    have h1 := onFixedUpdate_frozen w dt n h
    have h2 := stepN_frozen dt n k (onFixedUpdate w dt) h1.2.2
    ⟨h2.1.trans h1.1, h2.2.1.trans h1.2.1, h2.2.2⟩

/-- C2: after any number of fixed-update steps, a body with inverse mass `0`
has exactly the position and velocity it started with, regardless of the
contacts it participates in: velocity and position integration skip it, and
every impulse or positional correction applied by the solver scales by its
inverse mass. -/
theorem static_bodies_never_move (w : World) (dt : ℚ) (k n : Nat)
    (h : (w.bodyOf n).invMass = 0) :
    ((stepN w dt k).bodyOf n).position = (w.bodyOf n).position ∧
    ((stepN w dt k).bodyOf n).velocity = (w.bodyOf n).velocity :=
  ⟨(stepN_frozen dt n k w h).2.1, (stepN_frozen dt n k w h).1⟩

/-- Witness for C2: the static body `0` of `wMix`, in resting contact with
the dynamic body `1`, is unmoved after three steps. -/
theorem static_bodies_never_move_w :
    (wMix.bodyOf 0).invMass = 0 ∧
    (((stepN wMix 1 3).bodyOf 0).position = (wMix.bodyOf 0).position ∧
      ((stepN wMix 1 3).bodyOf 0).velocity = (wMix.bodyOf 0).velocity) :=
  ⟨by decide, static_bodies_never_move wMix 1 3 0 (by decide)⟩

theorem pairOf_setPair (w : World) (pid : Nat) (p : PairRec) (n : Nat) :
    (w.setPair pid p).pairOf n = if n = pid then p else w.pairOf n := rfl

theorem pairIds_markAllColliding :
    ∀ (l : List Nat) (w : World), (markAllColliding w l).pairIds = w.pairIds
  | [], _ => rfl
  | _ :: rest, _ => pairIds_markAllColliding rest _

theorem contacts_markAllColliding :
    ∀ (l : List Nat) (w : World), (markAllColliding w l).contacts = w.contacts
  | [], _ => rfl
  | _ :: rest, _ => contacts_markAllColliding rest _

theorem pairIds_runTests :
    ∀ (l : List Nat) (w : World), (runTests w l).pairIds = w.pairIds
  | [], _ => rfl
  | pid :: rest, w => by
    rw [runTests]
    split
    · exact pairIds_runTests rest _
    · exact pairIds_runTests rest _

theorem contacts_runTests :
    ∀ (l : List Nat) (w : World), (runTests w l).contacts = w.contacts
  | [], _ => rfl
  | pid :: rest, w => by
    rw [runTests]
    split
    · exact contacts_runTests rest _
    · exact contacts_runTests rest _

theorem pairIds_resetSeparated :
    ∀ (l : List Nat) (w : World), (resetSeparated w l).pairIds = w.pairIds
  | [], _ => rfl
  | pid :: rest, w => by
    rw [resetSeparated]
    split
    · exact pairIds_resetSeparated rest _
    · exact pairIds_resetSeparated rest _

theorem resetSeparated_inCollision :
    ∀ (l : List Nat) (w : World) (n : Nat),
      ((resetSeparated w l).pairOf n).inCollision = (w.pairOf n).inCollision
  | [], _, _ => rfl
  | pid :: rest, w, n => by
    rw [resetSeparated]
    split
    · exact resetSeparated_inCollision rest _ n
    · rw [resetSeparated_inCollision rest _ n, pairOf_setPair]
      by_cases hn : n = pid
      · rw [if_pos hn, hn]
      · rw [if_neg hn]

theorem resetSeparated_pairOf_notMem :
    ∀ (l : List Nat) (w : World) (n : Nat), n ∉ l →
      (resetSeparated w l).pairOf n = w.pairOf n
  | [], _, _, _ => rfl
  | pid :: rest, w, n, hn => by
    have h1 : n ∉ rest := fun hc => hn (List.mem_cons_of_mem _ hc)
    have h2 : n ≠ pid := fun hc => hn (hc ▸ List.mem_cons_self pid rest)
    rw [resetSeparated]
    split
    · exact resetSeparated_pairOf_notMem rest _ n h1
    · rw [resetSeparated_pairOf_notMem rest _ n h1, pairOf_setPair, if_neg h2]

theorem resetSeparated_zeroes :
    ∀ (l : List Nat) (w : World) (n : Nat), n ∈ l →
      (w.pairOf n).inCollision = false →
      ((resetSeparated w l).pairOf n).normalImpulse = 0 ∧
      ((resetSeparated w l).pairOf n).tangentImpulse = 0
  | [], _, _, hmem, _ => absurd hmem (List.not_mem_nil _)
  | pid :: rest, w, n, hmem, hflag => by
    rw [resetSeparated]
    by_cases hn : n = pid
    · subst hn
      rw [if_neg (by rw [hflag]; exact Bool.false_ne_true)]
      by_cases hr : n ∈ rest
      · exact resetSeparated_zeroes rest _ n hr
          (by rw [pairOf_setPair, if_pos rfl]; exact hflag)
      · rw [resetSeparated_pairOf_notMem rest _ n hr, pairOf_setPair, if_pos rfl]
        exact ⟨rfl, rfl⟩
    · have hr : n ∈ rest := (List.mem_cons.mp hmem).resolve_left hn
      split
      · exact resetSeparated_zeroes rest _ n hr hflag
      · exact resetSeparated_zeroes rest _ n hr
          (by rw [pairOf_setPair, if_neg hn]; exact hflag)

theorem resetSeparated_contacts_colliding :
    ∀ (l : List Nat) (w : World),
      (∀ q ∈ w.contacts, (w.pairOf q).inCollision = true) →
      ∀ q ∈ (resetSeparated w l).contacts,
        ((resetSeparated w l).pairOf q).inCollision = true
  | [], _, hc => hc
  | pid :: rest, w, hc => by
    rw [resetSeparated]
    split
    · next hcol =>
      apply resetSeparated_contacts_colliding rest _
      intro q hq
      rcases List.mem_append.mp hq with h | h
      · exact hc q h
      · have hqp : q = pid := by simpa using h
        subst hqp
        exact hcol
    · apply resetSeparated_contacts_colliding rest _
      intro q hq
      rw [pairOf_setPair]
      by_cases hqp : q = pid
      · rw [if_pos hqp]
        subst hqp
        exact hc q hq
      · rw [if_neg hqp]
        exact hc q hq

theorem preSolvePair_keeps (w : World) (pid n : Nat) :
    ((preSolvePair w pid).pairOf n).inCollision = (w.pairOf n).inCollision ∧
    ((preSolvePair w pid).pairOf n).normalImpulse = (w.pairOf n).normalImpulse ∧
    ((preSolvePair w pid).pairOf n).tangentImpulse = (w.pairOf n).tangentImpulse := by
  rw [preSolvePair, pairOf_setPair]
  by_cases hn : n = pid
  · rw [if_pos hn, hn]
    exact ⟨rfl, rfl, rfl⟩
  · rw [if_neg hn]
    exact ⟨rfl, rfl, rfl⟩

theorem preSolvePair_pairOf_ne (w : World) (pid n : Nat) (hne : n ≠ pid) :
    (preSolvePair w pid).pairOf n = w.pairOf n := by
  rw [preSolvePair, pairOf_setPair, if_neg hne]

theorem preSolveAll_keeps :
    ∀ (l : List Nat) (w : World) (n : Nat),
      ((preSolveAll w l).pairOf n).inCollision = (w.pairOf n).inCollision ∧
      ((preSolveAll w l).pairOf n).normalImpulse = (w.pairOf n).normalImpulse ∧
      ((preSolveAll w l).pairOf n).tangentImpulse = (w.pairOf n).tangentImpulse
  | [], _, _ => ⟨rfl, rfl, rfl⟩
  | pid :: rest, w, n =>
    have h1 := preSolvePair_keeps w pid n
    have h2 := preSolveAll_keeps rest (preSolvePair w pid) n
    ⟨h2.1.trans h1.1, h2.2.1.trans h1.2.1, h2.2.2.trans h1.2.2⟩

theorem preSolveAll_notMem :
    ∀ (l : List Nat) (w : World) (n : Nat), n ∉ l →
      (preSolveAll w l).pairOf n = w.pairOf n
  | [], _, _, _ => rfl
  | pid :: rest, w, n, hn => by
    have h1 : n ∉ rest := fun hc => hn (List.mem_cons_of_mem _ hc)
    have h2 : n ≠ pid := fun hc => hn (hc ▸ List.mem_cons_self pid rest)
    rw [preSolveAll, preSolveAll_notMem rest _ n h1, preSolvePair_pairOf_ne w pid n h2]

theorem contacts_preSolveAll :
    ∀ (l : List Nat) (w : World), (preSolveAll w l).contacts = w.contacts
  | [], _ => rfl
  | _ :: rest, _ => contacts_preSolveAll rest _

theorem solveVelocityPair_pairOf_ne (w : World) (pid n : Nat) (hne : n ≠ pid) :
    (solveVelocityPair w pid).pairOf n = w.pairOf n := by
  rw [solveVelocityPair]
  split
  · rfl
  · simp only [World.setPair, World.setBody]
    rw [if_neg hne]

theorem solveVelocityPair_inCollision (w : World) (pid n : Nat) :
    ((solveVelocityPair w pid).pairOf n).inCollision = (w.pairOf n).inCollision := by
  rw [solveVelocityPair]
  split
  · rfl
  · simp only [World.setPair, World.setBody]
    by_cases hn : n = pid
    · rw [if_pos hn, hn]
    · rw [if_neg hn]

theorem contacts_solveVelocityPair (w : World) (pid : Nat) :
    (solveVelocityPair w pid).contacts = w.contacts := by
  rw [solveVelocityPair]
  split <;> rfl

theorem solveVelocityAll_inCollision :
    ∀ (l : List Nat) (w : World) (n : Nat),
      ((solveVelocityAll w l).pairOf n).inCollision = (w.pairOf n).inCollision
  | [], _, _ => rfl
  | pid :: rest, w, n =>
    (solveVelocityAll_inCollision rest _ n).trans (solveVelocityPair_inCollision w pid n)

theorem solveVelocityAll_notMem :
    ∀ (l : List Nat) (w : World) (n : Nat), n ∉ l →
      (solveVelocityAll w l).pairOf n = w.pairOf n
  | [], _, _, _ => rfl
  | pid :: rest, w, n, hn =>
    have h1 : n ∉ rest := fun hc => hn (List.mem_cons_of_mem _ hc)
    have h2 : n ≠ pid := fun hc => hn (hc ▸ List.mem_cons_self pid rest)
    (solveVelocityAll_notMem rest _ n h1).trans (solveVelocityPair_pairOf_ne w pid n h2)

theorem contacts_solveVelocityAll :
    ∀ (l : List Nat) (w : World), (solveVelocityAll w l).contacts = w.contacts
  | [], _ => rfl
  | pid :: rest, w =>
    (contacts_solveVelocityAll rest _).trans (contacts_solveVelocityPair w pid)

theorem solveVelocityRounds_inCollision :
    ∀ (k : Nat) (w : World) (n : Nat),
      ((solveVelocityRounds w k).pairOf n).inCollision = (w.pairOf n).inCollision
  | 0, _, _ => rfl
  | k + 1, w, n =>
    (solveVelocityRounds_inCollision k _ n).trans (solveVelocityAll_inCollision w.contacts w n)

theorem solveVelocityRounds_notMem :
    ∀ (k : Nat) (w : World) (n : Nat), n ∉ w.contacts →
      (solveVelocityRounds w k).pairOf n = w.pairOf n
  | 0, _, _, _ => rfl
  | k + 1, w, n, hn =>
    have hc : n ∉ (solveVelocityAll w w.contacts).contacts := by
      rw [contacts_solveVelocityAll]; exact hn
    (solveVelocityRounds_notMem k _ n hc).trans (solveVelocityAll_notMem w.contacts w n hn)

theorem pairOf_integrateVelocities (dt : ℚ) :
    ∀ (l : List Nat) (w : World), (integrateVelocities w dt l).pairOf = w.pairOf
  | [], _ => rfl
  | bid :: rest, w => by
    rw [integrateVelocities]
    split
    · exact pairOf_integrateVelocities dt rest _
    · exact pairOf_integrateVelocities dt rest _

theorem contacts_integrateVelocities (dt : ℚ) :
    ∀ (l : List Nat) (w : World), (integrateVelocities w dt l).contacts = w.contacts
  | [], _ => rfl
  | bid :: rest, w => by
    rw [integrateVelocities]
    split
    · exact contacts_integrateVelocities dt rest _
    · exact contacts_integrateVelocities dt rest _

theorem pairOf_integratePositions (dt : ℚ) :
    ∀ (l : List Nat) (w : World), (integratePositions w dt l).pairOf = w.pairOf
  | [], _ => rfl
  | bid :: rest, w => by
    rw [integratePositions]
    split
    · exact pairOf_integratePositions dt rest _
    · exact pairOf_integratePositions dt rest _

theorem pairOf_solvePositionPair (w : World) (pid : Nat) :
    (solvePositionPair w pid).pairOf = w.pairOf := by
  rw [solvePositionPair]
  split <;> rfl

theorem pairOf_solvePositionAll :
    ∀ (l : List Nat) (w : World), (solvePositionAll w l).pairOf = w.pairOf
  | [], _ => rfl
  | pid :: rest, w =>
    (pairOf_solvePositionAll rest _).trans (pairOf_solvePositionPair w pid)

theorem pairOf_solvePositionRounds :
    ∀ (k : Nat) (w : World), (solvePositionRounds w k).pairOf = w.pairOf
  | 0, _ => rfl
  | k + 1, w =>
    (pairOf_solvePositionRounds k _).trans (pairOf_solvePositionAll w.contacts w)

theorem solve_pairOf_nonContact (w : World) (dt : ℚ) (n : Nat)
    (hn : n ∉ w.contacts) :
    (solve w dt).pairOf n = w.pairOf n := by
  rw [solve]
  set w1 := integrateVelocities w dt w.bodies with hw1
  have e1 : w1.pairOf = w.pairOf := pairOf_integrateVelocities dt w.bodies w
  have c1 : w1.contacts = w.contacts := contacts_integrateVelocities dt w.bodies w
  set w2 := preSolveAll w1 w1.contacts with hw2
  have e2 : w2.pairOf n = w1.pairOf n :=
    preSolveAll_notMem w1.contacts w1 n (by rw [c1]; exact hn)
  have c2 : w2.contacts = w1.contacts := contacts_preSolveAll w1.contacts w1
  set w3 := solveVelocityRounds w2 w2.iterations with hw3
  have e3 : w3.pairOf n = w2.pairOf n :=
    solveVelocityRounds_notMem w2.iterations w2 n (by rw [c2, c1]; exact hn)
  set w4 := integratePositions w3 dt w3.bodies with hw4
  have e4 : w4.pairOf = w3.pairOf := pairOf_integratePositions dt w3.bodies w3
  have e5 : (solvePositionRounds w4 w4.iterations).pairOf = w4.pairOf :=
    pairOf_solvePositionRounds w4.iterations w4
  rw [congrFun e5 n, congrFun e4 n, e3, e2, congrFun e1 n]

theorem solve_inCollision (w : World) (dt : ℚ) (n : Nat) :
    ((solve w dt).pairOf n).inCollision = (w.pairOf n).inCollision := by
  rw [solve]
  set w1 := integrateVelocities w dt w.bodies with hw1
  have e1 : w1.pairOf = w.pairOf := pairOf_integrateVelocities dt w.bodies w
  set w2 := preSolveAll w1 w1.contacts with hw2
  have e2 := (preSolveAll_keeps w1.contacts w1 n).1
  set w3 := solveVelocityRounds w2 w2.iterations with hw3
  have e3 := solveVelocityRounds_inCollision w2.iterations w2 n
  set w4 := integratePositions w3 dt w3.bodies with hw4
  have e4 : w4.pairOf = w3.pairOf := pairOf_integratePositions dt w3.bodies w3
  have e5 : (solvePositionRounds w4 w4.iterations).pairOf = w4.pairOf :=
    pairOf_solvePositionRounds w4.iterations w4
  rw [congrFun e5 n, congrFun e4 n, e3, e2, congrFun e1 n]

/-- C6: whenever a maintained pair ends a fixed-update step out of collision
(it failed the narrow-phase test of that step), both of its accumulated
impulses read zero at the end of the same step: the partition phase resets
them and the solver only ever touches pairs on the contact list, all of
which are in collision. -/
theorem separated_pair_impulses_zero (w : World) (dt : ℚ) (pid : Nat)
    (hmem : pid ∈ w.pairIds)
    (hsep : ((onFixedUpdate w dt).pairOf pid).inCollision = false) :
    ((onFixedUpdate w dt).pairOf pid).normalImpulse = 0 ∧
    ((onFixedUpdate w dt).pairOf pid).tangentImpulse = 0 := by
  rw [onFixedUpdate] at hsep ⊢
  set w0 : World := { w with contacts := ([] : List Nat) } with hw0
  set wm := markAllColliding w0 w0.pairIds with hwm
  set wt := runTests wm wm.pairIds with hwt
  set wr := resetSeparated wt wt.pairIds with hwr
  have hflagr : (wr.pairOf pid).inCollision = false := by
    rw [← solve_inCollision wr dt pid]
    exact hsep
  have hflagt : (wt.pairOf pid).inCollision = false := by
    rw [← resetSeparated_inCollision wt.pairIds wt pid]
    exact hflagr
  have hmemt : pid ∈ wt.pairIds := by
    rw [hwt, pairIds_runTests, hwm, pairIds_markAllColliding]
    exact hmem
  have hnc : pid ∉ wr.contacts := by
    intro hc
    have hcol := resetSeparated_contacts_colliding wt.pairIds wt
      (by
        intro q hq
        rw [hwt, contacts_runTests, hwm, contacts_markAllColliding] at hq
        exact absurd hq (List.not_mem_nil q))
      pid hc
    rw [hflagr] at hcol
    exact Bool.false_ne_true hcol
  have hz := resetSeparated_zeroes wt.pairIds wt pid hmemt hflagt
  have hkeep := solve_pairOf_nonContact wr dt pid hnc
  rw [hkeep]
  exact hz

theorem onFixedUpdate_flag (w : World) (dt : ℚ) (n : Nat) :
    ((onFixedUpdate w dt).pairOf n).inCollision =
      ((runTests (markAllColliding { w with contacts := ([] : List Nat) }
          ({ w with contacts := ([] : List Nat) } : World).pairIds)
        (markAllColliding { w with contacts := ([] : List Nat) }
          ({ w with contacts := ([] : List Nat) } : World).pairIds).pairIds).pairOf n).inCollision := by
  simp only [onFixedUpdate]
  rw [solve_inCollision, resetSeparated_inCollision]

theorem wSep_step_flag :
    ((onFixedUpdate wSep 1).pairOf 0).inCollision = false := by
  rw [onFixedUpdate_flag]
  show (testPairRec (wSep.bodyOf 1).position (wSep.bodyOf 2).position
      { wSep.pairOf 0 with inCollision := true }).inCollision = false
  simp only [wSep, cDemo1, cDemo2, testPairRec, worldGeom]
  split
  · next hlt => exfalso; norm_num at hlt
  · rfl

/-- Witness for C6: the stale pair of `wSep` (impulses `7` and `3`) fails
the narrow-phase test and ends the step with both impulses zeroed. -/
theorem separated_pair_impulses_zero_w :
    0 ∈ wSep.pairIds ∧
    ((onFixedUpdate wSep 1).pairOf 0).inCollision = false ∧
    (((onFixedUpdate wSep 1).pairOf 0).normalImpulse = 0 ∧
      ((onFixedUpdate wSep 1).pairOf 0).tangentImpulse = 0) :=
  ⟨by decide, wSep_step_flag,
    separated_pair_impulses_zero wSep 1 0 (by decide) wSep_step_flag⟩

theorem inCollisionScan_eq_find (w : World) (bA bB : Nat) :
    ∀ l : List Nat, inCollisionScan w bA bB l =
      (l.find? (pairConnects w bA bB)).map (scanArgs w bA bB)
  | [] => rfl
  | pid :: rest => by
    rw [inCollisionScan]
    by_cases hc : (w.pairOf pid).inCollision = true
    · by_cases h1 : ((w.pairOf pid).bodyA = bA && (w.pairOf pid).bodyB = bB) = true
      · rw [List.find?_cons_of_pos _ (by simp [pairConnects, hc, h1])]
        simp [hc, h1, scanArgs, if_neg (one_ne_zero (α := ℚ))]
      · by_cases h2 : ((w.pairOf pid).bodyA = bB && (w.pairOf pid).bodyB = bA) = true
        · rw [List.find?_cons_of_pos _ (by simp [pairConnects, hc, h2])]
          have hm1 : ¬((-1 : ℚ) = 0) := by norm_num
          simp [hc, h1, h2, scanArgs, hm1]
        · rw [List.find?_cons_of_neg _ (by simp [pairConnects, hc, h1, h2])]
          simp only [hc, Bool.not_true, if_false, h1, h2, if_true,
            if_pos (rfl : (0 : ℚ) = 0)]
          exact inCollisionScan_eq_find w bA bB rest
    · rw [List.find?_cons_of_neg _ (by simp [pairConnects, hc])]
      simp only [Bool.not_eq_true] at hc
      simp only [hc, Bool.not_false, if_true]
      exact inCollisionScan_eq_find w bA bB rest

/-- C9: `inCollision(bodyA, bodyB, …)` scans only `bodyA`'s pair list; its
return value says whether that list holds a pair that is in collision and
connects the two bodies in either order; the callback arguments are produced
exactly for the first such pair, carrying its overlap (positive whenever
in-collision pairs store positive overlaps, as the narrow phase guarantees)
and its normal multiplied by the sign that orients it from `bodyA`'s
collider toward `bodyB`'s collider. -/
theorem inCollision_query_spec (w : World) (bA bB : Nat)
    (hpos : ∀ pid ∈ (w.bodyOf bA).pairs,
      (w.pairOf pid).inCollision = true → 0 < (w.pairOf pid).overlap) :
    inCollisionQuery w bA bB =
      ((w.bodyOf bA).pairs.find? (pairConnects w bA bB)).map (scanArgs w bA bB) ∧
    (inCollisionBool w bA bB = true ↔
      ∃ pid ∈ (w.bodyOf bA).pairs, pairConnects w bA bB pid = true) ∧
    (∀ r, inCollisionQuery w bA bB = some r → 0 < r.2.2) := by
  have hq : inCollisionQuery w bA bB =
      ((w.bodyOf bA).pairs.find? (pairConnects w bA bB)).map (scanArgs w bA bB) :=
    inCollisionScan_eq_find w bA bB (w.bodyOf bA).pairs
  refine ⟨hq, ?_, ?_⟩
  · rw [inCollisionBool, hq, Option.isSome_map']
    rw [List.find?_isSome]
  · intro r hr
    rw [hq] at hr
    rcases Option.map_eq_some'.mp hr with ⟨pid, hfind, hargs⟩
    have hmem := List.mem_of_find?_eq_some hfind
    have hpred := List.find?_some hfind
    have hcol : (w.pairOf pid).inCollision = true := by
      simp only [pairConnects, Bool.and_eq_true] at hpred
      exact hpred.1
    have hov := hpos pid hmem hcol
    rw [← hargs]
    exact hov

/-- Witness for C9 at `wColl`: body `1`'s single pair connects bodies `1`
and `2` and is in collision with overlap `5`. -/
theorem inCollision_query_spec_w :
    inCollisionQuery wColl 1 2 =
      ((wColl.bodyOf 1).pairs.find? (pairConnects wColl 1 2)).map (scanArgs wColl 1 2) ∧
    (inCollisionBool wColl 1 2 = true ↔
      ∃ pid ∈ (wColl.bodyOf 1).pairs, pairConnects wColl 1 2 pid = true) ∧
    (∀ r, inCollisionQuery wColl 1 2 = some r → 0 < r.2.2) :=
  inCollision_query_spec wColl 1 2 (by decide)

/-- C1 counterexample: the unrestricted claim fails — `addBody` has no guard
against a body that is already active, so the sequence
`addBody 1; addBody 2; addBody 2` leaves two maintained pairs with the same
unordered shape combination `(1, 2)`. -/
theorem pair_uniqueness_fails_on_double_add :
    ¬ PairsUnique (applyOps (emptyWorld cfgDemo)
      [.addBodyOp 1, .addBodyOp 2, .addBodyOp 2]) := by
  decide

theorem kk_cases (u v x y : Nat) (h : kk u v = kk x y) :
    (u = x ∧ v = y) ∨ (u = y ∧ v = x) := by
  rw [kk, kk] at h
  split_ifs at h <;> simp only [Prod.mk.injEq] at h <;> omega

theorem kk_comm (u v : Nat) : kk u v = kk v u := by
  rw [kk, kk]
  split_ifs <;> simp only [Prod.mk.injEq] <;> omega

theorem kk_mentions (u x y : Nat) :
    ((kk u x).1 = y ∨ (kk u x).2 = y) ↔ (y = u ∨ y = x) := by
  rw [kk]
  split_ifs <;> simp <;> omega

theorem canonRec_fields (a b : Collider) (bA bB : Nat) :
    ((canonRec a b bA bB).a = a ∧ (canonRec a b bA bB).b = b ∧
      (canonRec a b bA bB).bodyA = bA ∧ (canonRec a b bA bB).bodyB = bB) ∨
    ((canonRec a b bA bB).a = b ∧ (canonRec a b bA bB).b = a ∧
      (canonRec a b bA bB).bodyA = bB ∧ (canonRec a b bA bB).bodyB = bA) := by
  rw [canonRec]
  split_ifs <;>
    first
      | exact Or.inl ⟨rfl, rfl, rfl, rfl⟩
      | exact Or.inr ⟨rfl, rfl, rfl, rfl⟩

theorem canonRec_key (a b : Collider) (bA bB : Nat) :
    pairKey (canonRec a b bA bB).a (canonRec a b bA bB).b = pairKey a b := by
  rcases canonRec_fields a b bA bB with ⟨h1, h2, _, _⟩ | ⟨h1, h2, _, _⟩
  · rw [h1, h2]
  · rw [h1, h2, pairKey, pairKey, kk_comm]

theorem addPair_bodies (w : World) (a b : Collider) (bA bB : Nat) :
    (addPair w a b bA bB).bodies = w.bodies := rfl

theorem addPair_pairIds (w : World) (a b : Collider) (bA bB : Nat) :
    (addPair w a b bA bB).pairIds = w.pairIds ++ [w.nextPairId] := rfl

theorem addPair_next (w : World) (a b : Collider) (bA bB : Nat) :
    (addPair w a b bA bB).nextPairId = w.nextPairId + 1 := rfl

theorem addPair_shapeData (w : World) (a b : Collider) (bA bB : Nat) (n : Nat) :
    ((addPair w a b bA bB).bodyOf n).collidersCache = (w.bodyOf n).collidersCache ∧
    ((addPair w a b bA bB).bodyOf n).defaultCollider = (w.bodyOf n).defaultCollider := by
  rw [addPair]
  simp only [World.setBody, World.hashInsert, World.setPair]
  split_ifs <;> simp_all

theorem addPair_pairOf_ne (w : World) (a b : Collider) (bA bB : Nat) (pid : Nat)
    (h : pid ≠ w.nextPairId) :
    (addPair w a b bA bB).pairOf pid = w.pairOf pid := by
  rw [addPair]
  simp only [World.setBody, World.hashInsert, World.setPair]
  rw [if_neg h]

theorem addPair_pairOf_new (w : World) (a b : Collider) (bA bB : Nat) :
    (addPair w a b bA bB).pairOf w.nextPairId = canonRec a b bA bB := by
  rw [addPair]
  simp only [World.setBody, World.hashInsert, World.setPair]
  simp

theorem addPairAll_spec (c : Collider) (fromB bid : Nat) :
    ∀ (cs : List Collider) (w : World),
      w.pairIds.Nodup → (∀ pid ∈ w.pairIds, pid < w.nextPairId) →
      (addPairAll w c fromB bid cs).bodies = w.bodies ∧
      (∀ n, ((addPairAll w c fromB bid cs).bodyOf n).collidersCache
          = (w.bodyOf n).collidersCache ∧
        ((addPairAll w c fromB bid cs).bodyOf n).defaultCollider
          = (w.bodyOf n).defaultCollider) ∧
      (addPairAll w c fromB bid cs).pairIds.Nodup ∧
      (∀ pid ∈ (addPairAll w c fromB bid cs).pairIds,
        pid < (addPairAll w c fromB bid cs).nextPairId) ∧
      (∀ pid ∈ w.pairIds, pid ∈ (addPairAll w c fromB bid cs).pairIds) ∧
      (∀ pid ∈ w.pairIds, (addPairAll w c fromB bid cs).pairOf pid = w.pairOf pid) ∧
      pairKeys (addPairAll w c fromB bid cs)
        = pairKeys w ++ cs.map (fun c' => pairKey c c') ∧
      (∀ pid ∈ (addPairAll w c fromB bid cs).pairIds,
        pid ∈ w.pairIds ∨ ∃ c' ∈ cs,
          (addPairAll w c fromB bid cs).pairOf pid = canonRec c c' fromB bid)
  | [], w, hnd, hlt => by
    refine ⟨rfl, fun _ => ⟨rfl, rfl⟩, hnd, hlt, fun _ h => h, fun _ _ => rfl, ?_,
      fun pid h => Or.inl h⟩
    show pairKeys w = pairKeys w ++ List.map (fun c' => pairKey c c') []
    simp
  | c' :: rest, w, hnd, hlt => by
    rw [addPairAll]
    set w1 := addPair w c c' fromB bid with hw1
    have h1ids : w1.pairIds = w.pairIds ++ [w.nextPairId] := by
      rw [hw1, addPair_pairIds]
    have h1next : w1.nextPairId = w.nextPairId + 1 := by
      rw [hw1, addPair_next]
    have h1nd : w1.pairIds.Nodup := by
      rw [h1ids, List.nodup_append]
      refine ⟨hnd, List.nodup_singleton _, ?_⟩
      intro x hx hx2
      rw [List.mem_singleton] at hx2
      exact lt_irrefl _ (hx2 ▸ hlt x hx)
    have h1lt : ∀ pid ∈ w1.pairIds, pid < w1.nextPairId := by
      rw [h1ids, h1next]
      intro pid hp
      rcases List.mem_append.mp hp with h | h
      · exact Nat.lt_succ_of_lt (hlt pid h)
      · rw [List.mem_singleton] at h
        subst h
        exact Nat.lt_succ_self _
    obtain ⟨ihbodies, ihshape, ihnd, ihlt, ihmono, ihold, ihkeys, ihdesc⟩ :=
      addPairAll_spec c fromB bid rest w1 h1nd h1lt
    refine ⟨?_, ?_, ihnd, ihlt, ?_, ?_, ?_, ?_⟩
    · rw [ihbodies, hw1, addPair_bodies]
    · intro n
      obtain ⟨e1, e2⟩ := ihshape n
      have f := addPair_shapeData w c c' fromB bid n
      rw [← hw1] at f
      exact ⟨e1.trans f.1, e2.trans f.2⟩
    · intro pid hp
      apply ihmono
      rw [h1ids]
      exact List.mem_append_left _ hp
    · intro pid hp
      have hne : pid ≠ w.nextPairId := Nat.ne_of_lt (hlt pid hp)
      have hmem1 : pid ∈ w1.pairIds := by
        rw [h1ids]
        exact List.mem_append_left _ hp
      have f := addPair_pairOf_ne w c c' fromB bid pid hne
      rw [← hw1] at f
      rw [ihold pid hmem1, f]
    · rw [ihkeys]
      have hkeys1 : pairKeys w1 = pairKeys w ++ [pairKey c c'] := by
        rw [pairKeys, h1ids, List.map_append]
        congr 1
        · apply List.map_congr_left
          intro pid hp
          have f := addPair_pairOf_ne w c c' fromB bid pid (Nat.ne_of_lt (hlt pid hp))
          rw [← hw1] at f
          rw [keyOfAt, keyOfAt, f]
        · have f := addPair_pairOf_new w c c' fromB bid
          rw [← hw1] at f
          simp [keyOfAt, f, canonRec_key]
      rw [hkeys1, List.append_assoc]
      rfl
    · intro pid hp
      rcases ihdesc pid hp with hin | ⟨c'', hc'', he⟩
      · rw [h1ids] at hin
        rcases List.mem_append.mp hin with h | h
        · exact Or.inl h
        · right
          refine ⟨c', List.mem_cons_self _ _, ?_⟩
          rw [List.mem_singleton] at h
          subst h
          have hmem1 : w.nextPairId ∈ w1.pairIds := by
            rw [h1ids]
            exact List.mem_append_right _ (List.mem_singleton.mpr rfl)
          have f := addPair_pairOf_new w c c' fromB bid
          rw [← hw1] at f
          rw [ihold _ hmem1, f]
      · exact Or.inr ⟨c'', List.mem_cons_of_mem _ hc'', he⟩

theorem collidersOf_congr (w w' : World) (n : Nat)
    (hc : (w'.bodyOf n).collidersCache = (w.bodyOf n).collidersCache)
    (hd : (w'.bodyOf n).defaultCollider = (w.bodyOf n).defaultCollider) :
    w'.collidersOf n = w.collidersOf n := by
  rw [World.collidersOf, World.collidersOf, hc, hd]

theorem addPairsGo_spec (c : Collider) (fromB : Nat) :
    ∀ (l : List Nat) (w : World),
      w.pairIds.Nodup → (∀ pid ∈ w.pairIds, pid < w.nextPairId) →
      (addPairsGo w c fromB l).bodies = w.bodies ∧
      (∀ n, ((addPairsGo w c fromB l).bodyOf n).collidersCache
          = (w.bodyOf n).collidersCache ∧
        ((addPairsGo w c fromB l).bodyOf n).defaultCollider
          = (w.bodyOf n).defaultCollider) ∧
      (addPairsGo w c fromB l).pairIds.Nodup ∧
      (∀ pid ∈ (addPairsGo w c fromB l).pairIds,
        pid < (addPairsGo w c fromB l).nextPairId) ∧
      (∀ pid ∈ w.pairIds, pid ∈ (addPairsGo w c fromB l).pairIds) ∧
      (∀ pid ∈ w.pairIds, (addPairsGo w c fromB l).pairOf pid = w.pairOf pid) ∧
      pairKeys (addPairsGo w c fromB l)
        = pairKeys w ++ (l.filter (fun b => b ≠ fromB)).flatMap
            (fun b' => (w.collidersOf b').map (fun c' => pairKey c c')) ∧
      (∀ pid ∈ (addPairsGo w c fromB l).pairIds,
        pid ∈ w.pairIds ∨ ∃ b' ∈ l, b' ≠ fromB ∧ ∃ c' ∈ w.collidersOf b',
          (addPairsGo w c fromB l).pairOf pid = canonRec c c' fromB b')
  | [], w, hnd, hlt => by
    refine ⟨rfl, fun _ => ⟨rfl, rfl⟩, hnd, hlt, fun _ h => h, fun _ _ => rfl, ?_,
      fun pid h => Or.inl h⟩
    show pairKeys w = pairKeys w
      ++ (List.filter (fun b => decide (b ≠ fromB)) []).flatMap
          (fun b' => List.map (fun c' => pairKey c c') (w.collidersOf b'))
    simp
  | bid :: rest, w, hnd, hlt => by
    rw [addPairsGo]
    by_cases hb : bid = fromB
    · rw [if_pos hb]
      obtain ⟨ihbodies, ihshape, ihnd, ihlt, ihmono, ihold, ihkeys, ihdesc⟩ :=
        addPairsGo_spec c fromB rest w hnd hlt
      refine ⟨ihbodies, ihshape, ihnd, ihlt, ihmono, ihold, ?_, ?_⟩
      · rw [ihkeys]
        have : List.filter (fun b => b ≠ fromB) (bid :: rest)
            = List.filter (fun b => b ≠ fromB) rest := by
          simp [List.filter_cons, hb]
        rw [this]
      · intro pid hp
        rcases ihdesc pid hp with h | ⟨b', hb', hne, hrest⟩
        · exact Or.inl h
        · exact Or.inr ⟨b', List.mem_cons_of_mem _ hb', hne, hrest⟩
    · rw [if_neg hb]
      set w1 := addPairAll w c fromB bid (w.collidersOf bid) with hw1
      obtain ⟨abodies, ashape, and1, alt1, amono, aold, akeys, adesc⟩ :=
        addPairAll_spec c fromB bid (w.collidersOf bid) w hnd hlt
      rw [← hw1] at abodies ashape and1 alt1 amono aold akeys adesc
      obtain ⟨ihbodies, ihshape, ihnd, ihlt, ihmono, ihold, ihkeys, ihdesc⟩ :=
        addPairsGo_spec c fromB rest w1 and1 alt1
      have hcolEq : ∀ n, w1.collidersOf n = w.collidersOf n := fun n =>
        collidersOf_congr w w1 n (ashape n).1 (ashape n).2
      refine ⟨?_, ?_, ihnd, ihlt, ?_, ?_, ?_, ?_⟩
      · rw [ihbodies, abodies]
      · intro n
        obtain ⟨e1, e2⟩ := ihshape n
        exact ⟨e1.trans (ashape n).1, e2.trans (ashape n).2⟩
      · intro pid hp
        exact ihmono pid (amono pid hp)
      · intro pid hp
        rw [ihold pid (amono pid hp), aold pid hp]
      · rw [ihkeys, akeys]
        have hfn : (fun b' => (w1.collidersOf b').map (fun c' => pairKey c c'))
            = (fun b' => (w.collidersOf b').map (fun c' => pairKey c c')) := by
          funext b'
          rw [hcolEq b']
        rw [hfn]
        have hfil : List.filter (fun b => b ≠ fromB) (bid :: rest)
            = bid :: List.filter (fun b => b ≠ fromB) rest := by
          simp [List.filter_cons, hb]
        rw [hfil, List.flatMap_cons, List.append_assoc]
      · intro pid hp
        rcases ihdesc pid hp with h1 | ⟨b', hb', hne, c', hc', he⟩
        · rcases adesc pid h1 with h2 | ⟨c', hc', he⟩
          · exact Or.inl h2
          · exact Or.inr ⟨bid, List.mem_cons_self _ _, hb, c', hc',
              (ihold pid h1).trans he⟩
        · rw [hcolEq b'] at hc'
          exact Or.inr ⟨b', List.mem_cons_of_mem _ hb', hne, c', hc', he⟩

theorem addBodyGo_spec (bid : Nat) :
    ∀ (cs : List Collider) (w : World),
      w.pairIds.Nodup → (∀ pid ∈ w.pairIds, pid < w.nextPairId) →
      (addBodyGo w bid cs).bodies = w.bodies ∧
      (∀ n, ((addBodyGo w bid cs).bodyOf n).collidersCache
          = (w.bodyOf n).collidersCache ∧
        ((addBodyGo w bid cs).bodyOf n).defaultCollider
          = (w.bodyOf n).defaultCollider) ∧
      (addBodyGo w bid cs).pairIds.Nodup ∧
      (∀ pid ∈ (addBodyGo w bid cs).pairIds,
        pid < (addBodyGo w bid cs).nextPairId) ∧
      (∀ pid ∈ w.pairIds, pid ∈ (addBodyGo w bid cs).pairIds) ∧
      (∀ pid ∈ w.pairIds, (addBodyGo w bid cs).pairOf pid = w.pairOf pid) ∧
      pairKeys (addBodyGo w bid cs)
        = pairKeys w ++ cs.flatMap (fun cO =>
            (w.bodies.filter (fun b => b ≠ bid)).flatMap
              (fun b' => (w.collidersOf b').map (fun c' => pairKey cO c'))) ∧
      (∀ pid ∈ (addBodyGo w bid cs).pairIds,
        pid ∈ w.pairIds ∨ ∃ cO ∈ cs, ∃ b' ∈ w.bodies, b' ≠ bid ∧
          ∃ c' ∈ w.collidersOf b',
            (addBodyGo w bid cs).pairOf pid = canonRec cO c' bid b')
  | [], w, hnd, hlt => by
    refine ⟨rfl, fun _ => ⟨rfl, rfl⟩, hnd, hlt, fun _ h => h, fun _ _ => rfl, ?_,
      fun pid h => Or.inl h⟩
    show pairKeys w = pairKeys w ++ ([] : List Collider).flatMap _
    simp
  | cO :: rest, w, hnd, hlt => by
    rw [addBodyGo, addPairs]
    set w1 := addPairsGo w cO bid w.bodies with hw1
    obtain ⟨abodies, ashape, and1, alt1, amono, aold, akeys, adesc⟩ :=
      addPairsGo_spec cO bid w.bodies w hnd hlt
    rw [← hw1] at abodies ashape and1 alt1 amono aold akeys adesc
    obtain ⟨ihbodies, ihshape, ihnd, ihlt, ihmono, ihold, ihkeys, ihdesc⟩ :=
      addBodyGo_spec bid rest w1 and1 alt1
    have hcolEq : ∀ n, w1.collidersOf n = w.collidersOf n := fun n =>
      collidersOf_congr w w1 n (ashape n).1 (ashape n).2
    refine ⟨?_, ?_, ihnd, ihlt, ?_, ?_, ?_, ?_⟩
    · rw [ihbodies, abodies]
    · intro n
      obtain ⟨e1, e2⟩ := ihshape n
      exact ⟨e1.trans (ashape n).1, e2.trans (ashape n).2⟩
    · intro pid hp
      exact ihmono pid (amono pid hp)
    · intro pid hp
      rw [ihold pid (amono pid hp), aold pid hp]
    · rw [ihkeys, akeys, abodies]
      have hfn : ∀ cX : Collider,
          (fun b' => (w1.collidersOf b').map (fun c' => pairKey cX c'))
            = (fun b' => (w.collidersOf b').map (fun c' => pairKey cX c')) := by
        intro cX
        funext b'
        rw [hcolEq b']
      have hfl : (fun cX : Collider =>
            (w.bodies.filter (fun b => b ≠ bid)).flatMap
              (fun b' => (w1.collidersOf b').map (fun c' => pairKey cX c')))
          = (fun cX : Collider =>
            (w.bodies.filter (fun b => b ≠ bid)).flatMap
              (fun b' => (w.collidersOf b').map (fun c' => pairKey cX c'))) := by
        funext cX
        rw [hfn cX]
      rw [hfl, List.flatMap_cons, List.append_assoc]
    · intro pid hp
      rcases ihdesc pid hp with h1 | ⟨cX, hcX, b', hb', hne, c', hc', he⟩
      · rcases adesc pid h1 with h2 | ⟨b', hb', hne, c', hc', he⟩
        · exact Or.inl h2
        · exact Or.inr ⟨cO, List.mem_cons_self _ _, b', hb', hne, c', hc',
            (ihold pid h1).trans he⟩
      · rw [abodies] at hb'
        rw [hcolEq b'] at hc'
        exact Or.inr ⟨cX, List.mem_cons_of_mem _ hcX, b', hb', hne, c', hc', he⟩

theorem removePairCleanup_spec (w : World) (pid : Nat) :
    (removePairCleanup w pid).bodies = w.bodies ∧
    (∀ n, ((removePairCleanup w pid).bodyOf n).collidersCache
        = (w.bodyOf n).collidersCache ∧
      ((removePairCleanup w pid).bodyOf n).defaultCollider
        = (w.bodyOf n).defaultCollider) ∧
    (removePairCleanup w pid).pairIds = w.pairIds ∧
    (removePairCleanup w pid).pairOf = w.pairOf ∧
    (removePairCleanup w pid).nextPairId = w.nextPairId := by
  refine ⟨rfl, ?_, rfl, rfl, rfl⟩
  intro n
  rw [removePairCleanup]
  simp only [World.setBody, World.hashErase]
  split_ifs <;> simp_all

theorem cleanupFold_spec :
    ∀ (ids : List Nat) (w : World),
      (ids.foldr (fun pid acc => removePairCleanup acc pid) w).bodies = w.bodies ∧
      (∀ n, ((ids.foldr (fun pid acc => removePairCleanup acc pid) w).bodyOf n).collidersCache
          = (w.bodyOf n).collidersCache ∧
        ((ids.foldr (fun pid acc => removePairCleanup acc pid) w).bodyOf n).defaultCollider
          = (w.bodyOf n).defaultCollider) ∧
      (ids.foldr (fun pid acc => removePairCleanup acc pid) w).pairIds = w.pairIds ∧
      (ids.foldr (fun pid acc => removePairCleanup acc pid) w).pairOf = w.pairOf ∧
      (ids.foldr (fun pid acc => removePairCleanup acc pid) w).nextPairId = w.nextPairId
  | [], w => ⟨rfl, fun _ => ⟨rfl, rfl⟩, rfl, rfl, rfl⟩
  | pid :: rest, w => by
    rw [List.foldr_cons]
    set w1 := rest.foldr (fun pid acc => removePairCleanup acc pid) w with hw1
    obtain ⟨ib, is, ii, ip, inx⟩ := cleanupFold_spec rest w
    rw [← hw1] at ib is ii ip inx
    obtain ⟨cb, cs2, ci, cp, cnx⟩ := removePairCleanup_spec w1 pid
    refine ⟨cb.trans ib, ?_, ci.trans ii, cp.trans ip, cnx.trans inx⟩
    intro n
    exact ⟨(cs2 n).1.trans (is n).1, (cs2 n).2.trans (is n).2⟩

theorem removePairs_spec (w : World) (c : Collider) :
    (removePairs w c).bodies = w.bodies ∧
    (∀ n, ((removePairs w c).bodyOf n).collidersCache
        = (w.bodyOf n).collidersCache ∧
      ((removePairs w c).bodyOf n).defaultCollider
        = (w.bodyOf n).defaultCollider) ∧
    (removePairs w c).pairIds
      = w.pairIds.filter (fun pid => !(pairTouches w c pid)) ∧
    (removePairs w c).pairOf = w.pairOf ∧
    (removePairs w c).nextPairId = w.nextPairId := by
  rw [removePairs]
  obtain ⟨b, s, _, p, n⟩ :=
    cleanupFold_spec (w.pairIds.filter (fun pid => pairTouches w c pid)) w
  exact ⟨b, s, rfl, p, n⟩

theorem removeBodyGo_spec :
    ∀ (cs : List Collider) (w : World),
      (removeBodyGo w cs).bodies = w.bodies ∧
      (∀ n, ((removeBodyGo w cs).bodyOf n).collidersCache
          = (w.bodyOf n).collidersCache ∧
        ((removeBodyGo w cs).bodyOf n).defaultCollider
          = (w.bodyOf n).defaultCollider) ∧
      List.Sublist (removeBodyGo w cs).pairIds w.pairIds ∧
      (∀ pid, pid ∈ (removeBodyGo w cs).pairIds ↔
        pid ∈ w.pairIds ∧ ∀ c ∈ cs, pairTouches w c pid = false) ∧
      (removeBodyGo w cs).pairOf = w.pairOf ∧
      (removeBodyGo w cs).nextPairId = w.nextPairId
  | [], w => ⟨rfl, fun _ => ⟨rfl, rfl⟩, List.Sublist.refl _,
      fun pid => ⟨fun h => ⟨h, fun c hc => absurd hc (List.not_mem_nil c)⟩,
        fun h => h.1⟩, rfl, rfl⟩
  | c :: rest, w => by
    rw [removeBodyGo]
    set w1 := removePairs w c with hw1
    obtain ⟨rb, rs, ri, rp, rnx⟩ := removePairs_spec w c
    rw [← hw1] at rb rs ri rp rnx
    obtain ⟨ib, is, isub, imem, ip, inx⟩ := removeBodyGo_spec rest w1
    have htouch : ∀ c' pid, pairTouches w1 c' pid = pairTouches w c' pid := by
      intro c' pid
      rw [pairTouches, pairTouches, rp]
    refine ⟨ib.trans rb, ?_, ?_, ?_, ip.trans rp, inx.trans rnx⟩
    · intro n
      exact ⟨(is n).1.trans (rs n).1, (is n).2.trans (rs n).2⟩
    · rw [ri] at isub
      exact isub.trans (List.filter_sublist _)
    · intro pid
      rw [imem pid, ri, List.mem_filter]
      constructor
      · rintro ⟨⟨hmem, hkeep⟩, hrest⟩
        refine ⟨hmem, ?_⟩
        intro c' hc'
        rcases List.mem_cons.mp hc' with h | h
        · subst h
          rw [Bool.not_eq_true'] at hkeep
          exact hkeep
        · rw [← htouch c' pid]
          exact hrest c' h
      · rintro ⟨hmem, hall⟩
        refine ⟨⟨hmem, ?_⟩, ?_⟩
        · rw [Bool.not_eq_true']
          exact hall c (List.mem_cons_self _ _)
        · intro c' hc'
          rw [htouch c' pid]
          exact hall c' (List.mem_cons_of_mem _ hc')

theorem nodup_kk_block (u : Nat) (T : List Nat) (hT : T.Nodup) (huT : u ∉ T) :
    (T.map (fun x => kk u x)).Nodup := by
  refine hT.map_on ?_
  intro x hx y hy he
  rcases kk_cases u x u y he with ⟨_, h2⟩ | ⟨h1, h2⟩
  · exact h2
  · exact absurd (h1 ▸ hy) huT

theorem kk_mem_block (u : Nat) (k : Nat × Nat) (T : List Nat)
    (hk : k ∈ T.map (fun x => kk u x)) :
    (k.1 = u ∨ k.2 = u) ∧ ∃ x ∈ T, k = kk u x := by
  rcases List.mem_map.mp hk with ⟨x, hx, he⟩
  subst he
  exact ⟨(kk_mentions u x u).mpr (Or.inl rfl), x, hx, rfl⟩

theorem nodup_keys_blocks (old : List (Nat × Nat)) (C T : List Nat)
    (holdnd : old.Nodup) (hC : C.Nodup) (hT : T.Nodup)
    (hCT : ∀ u ∈ C, u ∉ T)
    (hold : ∀ k ∈ old, ∀ u ∈ C, k.1 ≠ u ∧ k.2 ≠ u) :
    (old ++ C.flatMap (fun u => T.map (fun x => kk u x))).Nodup := by
  rw [List.nodup_append]
  refine ⟨holdnd, ?_, ?_⟩
  · rw [List.nodup_flatMap]
    constructor
    · intro u hu
      exact nodup_kk_block u T hT (hCT u hu)
    · have hne : C.Pairwise (· ≠ ·) := hC
      refine hne.imp_of_mem ?_
      intro u v hu hv huv k hk1 hk2
      obtain ⟨_, x, hx, he1⟩ := kk_mem_block u k T hk1
      obtain ⟨_, y, hy, he2⟩ := kk_mem_block v k T hk2
      rcases kk_cases u x v y (he1 ▸ he2 ▸ rfl) with ⟨h1, _⟩ | ⟨h1, h2⟩
      · exact huv h1
      · exact hCT u hu (h1 ▸ hy)
  · intro k hk hk2
    rcases List.mem_flatMap.mp hk2 with ⟨u, hu, hku⟩
    obtain ⟨hmention, _⟩ := kk_mem_block u k T hku
    obtain ⟨hne1, hne2⟩ := hold k hk u hu
    rcases hmention with h | h
    · exact hne1 h
    · exact hne2 h

theorem pairedCids_subset_bodyCids (w : World) (bid : Nat) (x : Nat)
    (h : x ∈ pairedCids w bid) : x ∈ bodyCids w bid := by
  rw [pairedCids, World.collidersOf] at h
  rw [bodyCids]
  by_cases hc : (w.bodyOf bid).collidersCache.isEmpty
  · rw [if_pos hc] at h
    simp only [List.map_cons, List.map_nil, List.mem_singleton] at h
    rw [h]
    exact List.mem_cons_self _ _
  · rw [if_neg hc] at h
    exact List.mem_cons_of_mem _ h

theorem bodyCids_subset_active (w : World) (bid : Nat) (hb : bid ∈ w.bodies)
    (x : Nat) (h : x ∈ bodyCids w bid) : x ∈ activeCids w := by
  rw [activeCids]
  exact List.mem_flatMap.mpr ⟨bid, hb, h⟩

theorem cid_owner_unique (w : World) (h : (activeCids w).Nodup)
    (b1 b2 : Nat) (hb1 : b1 ∈ w.bodies) (hb2 : b2 ∈ w.bodies)
    (x : Nat) (h1 : x ∈ bodyCids w b1) (h2 : x ∈ bodyCids w b2) : b1 = b2 := by
  by_contra hne
  rw [activeCids, List.nodup_flatMap] at h
  have hsym : Symmetric (Function.onFun List.Disjoint (bodyCids w)) :=
    fun _ _ hab => hab.symm
  exact h.2.forall hsym hb1 hb2 hne h1 h2

theorem keyOfAt_components (w : World) (hInv : Inv w) (pid : Nat)
    (hp : pid ∈ w.pairIds) :
    (keyOfAt w pid).1 ∈ activeCids w ∧ (keyOfAt w pid).2 ∈ activeCids w := by
  obtain ⟨hA, hB, _, ha, hb⟩ := hInv.refs pid hp
  have h1 := bodyCids_subset_active w _ hA _ (pairedCids_subset_bodyCids _ _ _ ha)
  have h2 := bodyCids_subset_active w _ hB _ (pairedCids_subset_bodyCids _ _ _ hb)
  rw [keyOfAt, pairKey, kk]
  split_ifs
  · exact ⟨h1, h2⟩
  · exact ⟨h2, h1⟩

theorem inv_noSelfPairs (w : World) (hInv : Inv w) : NoSelfPairs w := by
  intro pid hp bid hbid hcontra
  obtain ⟨ha, hb⟩ := hcontra
  obtain ⟨hA, hB, hne, hpa, hpb⟩ := hInv.refs pid hp
  have e1 : bid = (w.pairOf pid).bodyA :=
    cid_owner_unique w hInv.cidsNd bid _ hbid hA _ ha
      (pairedCids_subset_bodyCids _ _ _ hpa)
  have e2 : bid = (w.pairOf pid).bodyB :=
    cid_owner_unique w hInv.cidsNd bid _ hbid hB _ hb
      (pairedCids_subset_bodyCids _ _ _ hpb)
  exact hne (e1.symm.trans e2)

theorem bodyCids_congr (w w' : World)
    (hsh : ∀ n, (w'.bodyOf n).collidersCache = (w.bodyOf n).collidersCache ∧
      (w'.bodyOf n).defaultCollider = (w.bodyOf n).defaultCollider) :
    bodyCids w' = bodyCids w := by
  funext n
  rw [bodyCids, bodyCids, (hsh n).1, (hsh n).2]

theorem pairedCids_congr (w w' : World)
    (hsh : ∀ n, (w'.bodyOf n).collidersCache = (w.bodyOf n).collidersCache ∧
      (w'.bodyOf n).defaultCollider = (w.bodyOf n).defaultCollider) :
    pairedCids w' = pairedCids w := by
  funext n
  rw [pairedCids, pairedCids, collidersOf_congr w w' n (hsh n).1 (hsh n).2]

theorem activeCids_congr (w w' : World)
    (hb : w'.bodies = w.bodies)
    (hsh : ∀ n, (w'.bodyOf n).collidersCache = (w.bodyOf n).collidersCache ∧
      (w'.bodyOf n).defaultCollider = (w.bodyOf n).defaultCollider) :
    activeCids w' = activeCids w := by
  rw [activeCids, activeCids, hb, bodyCids_congr w w' hsh]

theorem inv_congr (w w' : World)
    (hb : w'.bodies = w.bodies)
    (hi : w'.pairIds = w.pairIds)
    (hn : w'.nextPairId = w.nextPairId)
    (hp : ∀ pid ∈ w.pairIds, w'.pairOf pid = w.pairOf pid)
    (hsh : ∀ n, (w'.bodyOf n).collidersCache = (w.bodyOf n).collidersCache ∧
      (w'.bodyOf n).defaultCollider = (w.bodyOf n).defaultCollider)
    (hInv : Inv w) : Inv w' := by
  have hkeys : pairKeys w' = pairKeys w := by
    rw [pairKeys, pairKeys, hi]
    apply List.map_congr_left
    intro pid hpid
    rw [keyOfAt, keyOfAt, hp pid hpid]
  refine ⟨?_, ?_, ?_, ?_, ?_, ?_⟩
  · rw [hb]; exact hInv.bodiesNd
  · rw [activeCids_congr w w' hb hsh]; exact hInv.cidsNd
  · rw [hi]; exact hInv.pidsNd
  · rw [hi, hn]; exact hInv.pidsLt
  · intro pid hpid
    rw [hi] at hpid
    rw [hb, hp pid hpid, pairedCids_congr w w' hsh]
    exact hInv.refs pid hpid
  · rw [hkeys]; exact hInv.keysNd

theorem flatMap_sublist (f : Nat → List Nat) {l' l : List Nat}
    (h : List.Sublist l' l) : List.Sublist (l'.flatMap f) (l.flatMap f) := by
  induction h with
  | slnil => exact List.Sublist.refl _
  | cons a h ih =>
    rw [List.flatMap_cons]
    exact ih.trans (List.sublist_append_right _ _)
  | cons₂ a h ih =>
    rw [List.flatMap_cons, List.flatMap_cons]
    exact ih.append_left _

theorem removeBody_via_go (w : World) (bid : Nat) :
    removeBody w bid =
      { (removeBodyGo w (w.collidersOf bid)).setBody bid
          { (removeBodyGo w (w.collidersOf bid)).bodyOf bid with pairs := [] } with
        bodies := spliceOut ((removeBodyGo w (w.collidersOf bid)).setBody bid
          { (removeBodyGo w (w.collidersOf bid)).bodyOf bid with
            pairs := [] }).bodies bid } := by
  rw [removeBody, World.collidersOf]
  by_cases hc : (w.bodyOf bid).collidersCache.isEmpty
  · rw [if_pos hc, if_pos hc]
    rfl
  · rw [if_neg hc, if_neg hc]

theorem pairTouches_of_pairedCid (w : World) (bid pid : Nat)
    (hx : (w.pairOf pid).a.cid ∈ pairedCids w bid ∨
      (w.pairOf pid).b.cid ∈ pairedCids w bid) :
    ∃ c ∈ w.collidersOf bid, pairTouches w c pid = true := by
  rcases hx with hx | hx <;>
    · rw [pairedCids] at hx
      rcases List.mem_map.mp hx with ⟨c, hc, he⟩
      refine ⟨c, hc, ?_⟩
      rw [pairTouches]
      simp [he]

theorem inv_removeBody (w : World) (bid : Nat) (hInv : Inv w)
    (hb : bid ∈ w.bodies) : Inv (removeBody w bid) := by
  rw [removeBody_via_go]
  set w1 := removeBodyGo w (w.collidersOf bid) with hw1
  obtain ⟨gb, gs, gsub, gmem, gp, gnx⟩ := removeBodyGo_spec (w.collidersOf bid) w
  rw [← hw1] at gb gs gsub gmem gp gnx
  set W : World := { w1.setBody bid { w1.bodyOf bid with pairs := [] } with
    bodies := spliceOut (w1.setBody bid
      { w1.bodyOf bid with pairs := [] }).bodies bid } with hW
  have hWbodies : W.bodies = w.bodies.erase bid := by
    rw [hW]
    show spliceOut w1.bodies bid = _
    rw [gb, spliceOut, if_pos hb]
  have hWpairIds : W.pairIds = w1.pairIds := rfl
  have hWpairOf : W.pairOf = w1.pairOf := rfl
  have hWnext : W.nextPairId = w1.nextPairId := rfl
  have hWshape : ∀ n, (W.bodyOf n).collidersCache = (w.bodyOf n).collidersCache ∧
      (W.bodyOf n).defaultCollider = (w.bodyOf n).defaultCollider := by
    intro n
    have : W.bodyOf n = if n = bid then { w1.bodyOf bid with pairs := [] }
        else w1.bodyOf n := rfl
    rw [this]
    by_cases hn : n = bid
    · rw [if_pos hn, hn]
      exact ⟨(gs bid).1, (gs bid).2⟩
    · rw [if_neg hn]
      exact ⟨(gs n).1, (gs n).2⟩
  have hWkeys : pairKeys W = List.map (keyOfAt w) w1.pairIds := by
    rw [pairKeys]
    apply List.map_congr_left
    intro pid hp
    rw [keyOfAt, keyOfAt, hWpairOf, gp]
  refine ⟨?_, ?_, ?_, ?_, ?_, ?_⟩
  · rw [hWbodies]
    exact hInv.bodiesNd.erase _
  · have : activeCids W = (w.bodies.erase bid).flatMap (bodyCids w) := by
      rw [activeCids, hWbodies, bodyCids_congr w W hWshape]
    rw [this]
    exact hInv.cidsNd.sublist (flatMap_sublist _ (List.erase_sublist _ _))
  · rw [hWpairIds]
    exact hInv.pidsNd.sublist gsub
  · intro pid hp
    rw [hWpairIds] at hp
    rw [hWnext, gnx]
    exact hInv.pidsLt pid (gsub.mem hp)
  · intro pid hp
    rw [hWpairIds] at hp
    obtain ⟨hmem, hnotouch⟩ := (gmem pid).mp hp
    have hpeq : W.pairOf pid = w.pairOf pid := by rw [hWpairOf, gp]
    obtain ⟨hA, hB, hne, hpa, hpb⟩ := hInv.refs pid hmem
    have hAne : (w.pairOf pid).bodyA ≠ bid := by
      intro he
      obtain ⟨c, hc, htc⟩ := pairTouches_of_pairedCid w bid pid (Or.inl (he ▸ hpa))
      rw [hnotouch c hc] at htc
      exact Bool.false_ne_true htc
    have hBne : (w.pairOf pid).bodyB ≠ bid := by
      intro he
      obtain ⟨c, hc, htc⟩ := pairTouches_of_pairedCid w bid pid (Or.inr (he ▸ hpb))
      rw [hnotouch c hc] at htc
      exact Bool.false_ne_true htc
    rw [hpeq, hWbodies, pairedCids_congr w W hWshape]
    exact ⟨(List.mem_erase_of_ne hAne).mpr hA, (List.mem_erase_of_ne hBne).mpr hB,
      hne, hpa, hpb⟩
  · rw [hWkeys]
    exact hInv.keysNd.sublist (gsub.map _)

theorem block_single (w : World) (u : Nat) :
    ∀ (bs : List Nat),
      bs.flatMap (fun b' => (w.collidersOf b').map (fun c' => kk u c'.cid))
        = (bs.flatMap (pairedCids w)).map (fun x => kk u x)
  | [] => rfl
  | b :: rest => by
    rw [List.flatMap_cons, List.flatMap_cons, List.map_append, block_single w u rest]
    congr 1
    rw [pairedCids, List.map_map]
    rfl

theorem blocks_as_kk (T : List Nat) :
    ∀ (cs : List Collider),
      cs.flatMap (fun cO => T.map (fun x => kk cO.cid x))
        = (cs.map Collider.cid).flatMap (fun u => T.map (fun x => kk u x))
  | [] => rfl
  | c :: rest => by
    rw [List.flatMap_cons, List.map_cons, List.flatMap_cons, blocks_as_kk T rest]

theorem pairedCids_sublist_bodyCids (w : World) (bid : Nat) :
    List.Sublist (pairedCids w bid) (bodyCids w bid) := by
  rw [pairedCids, bodyCids, World.collidersOf]
  by_cases hc : (w.bodyOf bid).collidersCache.isEmpty = true
  · rw [if_pos hc]
    simp
  · rw [if_neg hc]
    exact List.sublist_cons_self _ _

theorem flatMap_sublist_pointwise (f g : Nat → List Nat)
    (h : ∀ b, List.Sublist (g b) (f b)) :
    ∀ l : List Nat, List.Sublist (l.flatMap g) (l.flatMap f)
  | [] => List.Sublist.refl _
  | b :: rest => by
    rw [List.flatMap_cons, List.flatMap_cons]
    exact (h b).append (flatMap_sublist_pointwise f g h rest)

theorem addBody_via_go (w : World) (bid : Nat) :
    addBody w bid =
      { addBodyGo (w.setBody bid { w.bodyOf bid with pairs := [] }) bid
          (w.collidersOf bid) with
        bodies := (addBodyGo (w.setBody bid { w.bodyOf bid with pairs := [] }) bid
          (w.collidersOf bid)).bodies ++ [bid] } := by
  simp only [addBody, World.collidersOf]
  by_cases hc : (w.bodyOf bid).collidersCache.isEmpty = true
  · rw [if_pos hc, if_pos hc]
    have hdef : (w.setBody bid { w.bodyOf bid with pairs := [] }).bodyOf bid
        = { w.bodyOf bid with pairs := [] } := by
      rw [bodyOf_setBody, if_pos rfl]
    rw [hdef]
    rfl
  · rw [if_neg hc, if_neg hc]

theorem inv_addBody (w : World) (bid : Nat) (hInv : Inv w)
    (hnb : bid ∉ w.bodies)
    (hndcids : (bodyCids w bid).Nodup)
    (hfresh : ∀ x ∈ bodyCids w bid, x ∉ activeCids w) :
    Inv (addBody w bid) := by
  rw [addBody_via_go]
  set w1 := w.setBody bid { w.bodyOf bid with pairs := [] } with hw1
  have h1shape : ∀ n, (w1.bodyOf n).collidersCache = (w.bodyOf n).collidersCache ∧
      (w1.bodyOf n).defaultCollider = (w.bodyOf n).defaultCollider := by
    intro n
    rw [hw1, bodyOf_setBody]
    by_cases hn : n = bid
    · rw [if_pos hn, hn]
      exact ⟨rfl, rfl⟩
    · rw [if_neg hn]
      exact ⟨rfl, rfl⟩
  obtain ⟨gb, gs, gnd, glt, gmono, gold, gkeys, gdesc⟩ :=
    addBodyGo_spec bid (w.collidersOf bid) w1 hInv.pidsNd hInv.pidsLt
  set W2 := addBodyGo w1 bid (w.collidersOf bid) with hW2
  set W : World := { W2 with bodies := W2.bodies ++ [bid] } with hW
  have hWbodies : W.bodies = w.bodies ++ [bid] := by
    rw [hW]
    show W2.bodies ++ [bid] = _
    rw [gb]
    rfl
  have hWshape : ∀ n, (W.bodyOf n).collidersCache = (w.bodyOf n).collidersCache ∧
      (W.bodyOf n).defaultCollider = (w.bodyOf n).defaultCollider := by
    intro n
    exact ⟨(gs n).1.trans (h1shape n).1, (gs n).2.trans (h1shape n).2⟩
  have h1colOf : ∀ n, w1.collidersOf n = w.collidersOf n := fun n =>
    collidersOf_congr w w1 n (h1shape n).1 (h1shape n).2
  have hWpairedEq : pairedCids W = pairedCids w := pairedCids_congr w W hWshape
  refine ⟨?_, ?_, gnd, glt, ?_, ?_⟩
  · rw [hWbodies, List.nodup_append]
    refine ⟨hInv.bodiesNd, List.nodup_singleton _, ?_⟩
    intro x hx hx2
    rw [List.mem_singleton] at hx2
    exact hnb (hx2 ▸ hx)
  · have : activeCids W = activeCids w ++ bodyCids w bid := by
      rw [activeCids, hWbodies, bodyCids_congr w W hWshape, List.flatMap_append,
        activeCids]
      simp
    rw [this, List.nodup_append]
    refine ⟨hInv.cidsNd, hndcids, ?_⟩
    intro x hx hx2
    exact hfresh x hx2 hx
  · intro pid hp
    have hp2 : pid ∈ W2.pairIds := hp
    have hWpairOf : W.pairOf = W2.pairOf := rfl
    rcases gdesc pid hp2 with hold | ⟨cO, hcO, b', hb', hbne, c', hc', he⟩
    · have hpmem : pid ∈ w.pairIds := hold
      obtain ⟨hA, hB, hne, hpa, hpb⟩ := hInv.refs pid hpmem
      have : W.pairOf pid = w.pairOf pid := by
        rw [hWpairOf, gold pid hold]
        rfl
      rw [this, hWbodies, hWpairedEq]
      exact ⟨List.mem_append_left _ hA, List.mem_append_left _ hB, hne, hpa, hpb⟩
    · have hb'w : b' ∈ w.bodies := hb'
      rw [h1colOf b'] at hc'
      have hcidO : cO.cid ∈ pairedCids w bid := by
        rw [pairedCids]
        exact List.mem_map_of_mem _ hcO
      have hcid' : c'.cid ∈ pairedCids w b' := by
        rw [pairedCids]
        exact List.mem_map_of_mem _ hc'
      have hWp : W.pairOf pid = canonRec cO c' bid b' := by
        rw [hWpairOf]
        exact he
      rw [hWp, hWbodies, hWpairedEq]
      rcases canonRec_fields cO c' bid b' with ⟨f1, f2, f3, f4⟩ | ⟨f1, f2, f3, f4⟩
      · rw [f1, f2, f3, f4]
        exact ⟨List.mem_append_right _ (List.mem_singleton.mpr rfl),
          List.mem_append_left _ hb'w,
          fun hc => hnb (hc ▸ hb'w), hcidO, hcid'⟩
      · rw [f1, f2, f3, f4]
        exact ⟨List.mem_append_left _ hb'w,
          List.mem_append_right _ (List.mem_singleton.mpr rfl),
          fun hc => hnb (hc.symm ▸ hb'w), hcid', hcidO⟩
  · have hWkeys : pairKeys W = pairKeys W2 := rfl
    rw [hWkeys, gkeys]
    have hkw1 : pairKeys w1 = pairKeys w := rfl
    have hb1 : w1.bodies = w.bodies := rfl
    rw [hkw1, hb1]
    have hinner : (fun cO : Collider =>
          (w.bodies.filter (fun b => b ≠ bid)).flatMap
            (fun b' => (w1.collidersOf b').map (fun c' => pairKey cO c')))
        = (fun cO : Collider =>
          ((w.bodies.filter (fun b => b ≠ bid)).flatMap (pairedCids w)).map
            (fun x => kk cO.cid x)) := by
      funext cO
      have : (fun b' => (w1.collidersOf b').map (fun c' => pairKey cO c'))
          = (fun b' => (w.collidersOf b').map (fun c' => kk cO.cid c'.cid)) := by
        funext b'
        rw [h1colOf b']
        rfl
      rw [this, block_single w cO.cid]
    rw [hinner, blocks_as_kk]
    set T := (w.bodies.filter (fun b => b ≠ bid)).flatMap (pairedCids w) with hT
    have hTsub : List.Sublist T (activeCids w) := by
      rw [hT, activeCids]
      exact (flatMap_sublist_pointwise (bodyCids w) (pairedCids w)
        (pairedCids_sublist_bodyCids w) _).trans
        (flatMap_sublist _ (List.filter_sublist _))
    have hCsub : List.Sublist ((w.collidersOf bid).map Collider.cid)
        (bodyCids w bid) := by
      have : (w.collidersOf bid).map Collider.cid = pairedCids w bid := rfl
      rw [this]
      exact pairedCids_sublist_bodyCids w bid
    apply nodup_keys_blocks
    · exact hInv.keysNd
    · exact hndcids.sublist hCsub
    · exact hInv.cidsNd.sublist hTsub
    · intro u hu hx
      exact hfresh u (hCsub.mem hu) (hTsub.mem hx)
    · intro k hk u hu
      rcases List.mem_map.mp hk with ⟨pid, hpid, he⟩
      obtain ⟨h1, h2⟩ := keyOfAt_components w hInv pid hpid
      have hufr : u ∉ activeCids w := hfresh u (hCsub.mem hu)
      subst he
      exact ⟨fun hc => hufr (hc ▸ h1), fun hc => hufr (hc ▸ h2)⟩

theorem flatMap_congr_mem {α β : Type} (f g : α → List β) :
    ∀ l : List α, (∀ b ∈ l, f b = g b) → l.flatMap f = l.flatMap g
  | [], _ => rfl
  | b :: rest, h => by
    rw [List.flatMap_cons, List.flatMap_cons, h b (List.mem_cons_self _ _),
      flatMap_congr_mem f g rest (fun x hx => h x (List.mem_cons_of_mem _ hx))]

theorem mem_eraseCollider (c : Collider) (x : Nat) :
    ∀ cache : List Collider, x ∈ cache.map Collider.cid → x ≠ c.cid →
      x ∈ (eraseCollider cache c).map Collider.cid
  | [], hx, _ => absurd hx (List.not_mem_nil x)
  | c0 :: rest, hx, hne => by
    rw [List.map_cons] at hx
    rw [eraseCollider, List.eraseP_cons]
    by_cases h0 : c0.cid = c.cid
    · rw [decide_eq_true h0, cond_true]
      rcases List.mem_cons.mp hx with h | h
      · exact absurd (h.trans h0) hne
      · exact h
    · rw [decide_eq_false h0, cond_false]
      rcases List.mem_cons.mp hx with h | h
      · rw [List.map_cons]
        exact List.mem_cons.mpr (Or.inl h)
      · rw [List.map_cons]
        exact List.mem_cons.mpr (Or.inr (mem_eraseCollider c x rest h hne))

theorem nodup_flatMap_extend (l : List Nat) (f g : Nat → List Nat) (bid x : Nat)
    (hfg : ∀ n, n ≠ bid → g n = f n) (hgbid : g bid = f bid ++ [x])
    (hnd : (l.flatMap f).Nodup) (hx : ∀ n ∈ l, x ∉ f n) (hlnd : l.Nodup) :
    (l.flatMap g).Nodup := by
  rw [List.nodup_flatMap] at hnd ⊢
  obtain ⟨hblocks, hpair⟩ := hnd
  constructor
  · intro n hn
    by_cases hnb : n = bid
    · subst hnb
      rw [hgbid, List.nodup_append]
      refine ⟨hblocks _ hn, List.nodup_singleton _, ?_⟩
      intro y hy hy2
      rw [List.mem_singleton] at hy2
      exact hx _ hn (hy2 ▸ hy)
    · rw [hfg n hnb]
      exact hblocks n hn
  · have hne : l.Pairwise (· ≠ ·) := hlnd
    refine (hne.and hpair).imp_of_mem ?_
    intro a b ha hb hand y hya hyb
    obtain ⟨hab, hdis⟩ := hand
    have hmema : y ∈ f a ∨ (a = bid ∧ y = x) := by
      by_cases h : a = bid
      · subst h
        rw [hgbid] at hya
        rcases List.mem_append.mp hya with h | h
        · exact Or.inl h
        · exact Or.inr ⟨rfl, List.mem_singleton.mp h⟩
      · rw [hfg a h] at hya
        exact Or.inl hya
    have hmemb : y ∈ f b ∨ (b = bid ∧ y = x) := by
      by_cases h : b = bid
      · subst h
        rw [hgbid] at hyb
        rcases List.mem_append.mp hyb with h | h
        · exact Or.inl h
        · exact Or.inr ⟨rfl, List.mem_singleton.mp h⟩
      · rw [hfg b h] at hyb
        exact Or.inl hyb
    rcases hmema with h1 | ⟨ha1, hx1⟩
    · rcases hmemb with h2 | ⟨hb1, hx2⟩
      · exact hdis h1 h2
      · exact hx a ha (hx2 ▸ h1)
    · rcases hmemb with h2 | ⟨hb1, hx2⟩
      · exact hx b hb (hx1 ▸ h2)
      · exact hab (ha1.trans hb1.symm)

theorem inv_addShape (w : World) (bid : Nat) (c : Collider) (hInv : Inv w)
    (hb : bid ∈ w.bodies) (hfresh : c.cid ∉ activeCids w) :
    Inv (applyOp w (.addShapeOp bid c)) := by
  show Inv (addCollider (w.setBody bid { w.bodyOf bid with
    collidersCache := (w.bodyOf bid).collidersCache ++ [c] }) (.node (some bid)) c)
  set w1 := w.setBody bid { w.bodyOf bid with
    collidersCache := (w.bodyOf bid).collidersCache ++ [c] } with hw1
  have h1bodies : w1.bodies = w.bodies := rfl
  have h1ids : w1.pairIds = w.pairIds := rfl
  have h1pairOf : w1.pairOf = w.pairOf := rfl
  have h1cache : (w1.bodyOf bid).collidersCache
      = (w.bodyOf bid).collidersCache ++ [c] := by
    rw [hw1, bodyOf_setBody, if_pos rfl]
  have h1shape_ne : ∀ n, n ≠ bid →
      (w1.bodyOf n).collidersCache = (w.bodyOf n).collidersCache ∧
      (w1.bodyOf n).defaultCollider = (w.bodyOf n).defaultCollider := by
    intro n hn
    rw [hw1, bodyOf_setBody, if_neg hn]
    exact ⟨rfl, rfl⟩
  have h1def : ∀ n, (w1.bodyOf n).defaultCollider
      = (w.bodyOf n).defaultCollider := by
    intro n
    rw [hw1, bodyOf_setBody]
    by_cases hn : n = bid
    · rw [if_pos hn, hn]
    · rw [if_neg hn]
  have hbody1 : bid ∈ w1.bodies := hb
  show Inv (if bid ∈ w1.bodies then
      (if ((addPairs w1 c bid).bodyOf bid).collidersCache.length = 1 then
        removePairs (addPairs w1 c bid)
          ((addPairs w1 c bid).bodyOf bid).defaultCollider
      else addPairs w1 c bid)
    else w1)
  rw [if_pos hbody1, addPairs]
  set w2 := addPairsGo w1 c bid w1.bodies with hw2
  obtain ⟨gb, gs, gnd, glt, gmono, gold, gkeys, gdesc⟩ :=
    addPairsGo_spec c bid w1.bodies w1 hInv.pidsNd hInv.pidsLt
  rw [← hw2] at gb gs gnd glt gmono gold gkeys gdesc
  have h2bodies : w2.bodies = w.bodies := gb.trans h1bodies
  have h2cache : (w2.bodyOf bid).collidersCache
      = (w.bodyOf bid).collidersCache ++ [c] := (gs bid).1.trans h1cache
  have h2def : (w2.bodyOf bid).defaultCollider
      = (w.bodyOf bid).defaultCollider := (gs bid).2.trans (h1def bid)
  have hlen : (w2.bodyOf bid).collidersCache.length
      = (w.bodyOf bid).collidersCache.length + 1 := by
    rw [h2cache, List.length_append, List.length_singleton]
  -- collider-id bookkeeping at w1
  have hbc_ne : ∀ n, n ≠ bid → bodyCids w1 n = bodyCids w n := by
    intro n hn
    rw [bodyCids, bodyCids, (h1shape_ne n hn).1, (h1shape_ne n hn).2]
  have hbc_bid : bodyCids w1 bid = bodyCids w bid ++ [c.cid] := by
    rw [bodyCids, bodyCids, h1cache, h1def bid, List.map_append]
    rfl
  have hactNd : (w.bodies.flatMap (bodyCids w1)).Nodup := by
    refine nodup_flatMap_extend w.bodies (bodyCids w) (bodyCids w1) bid c.cid
      hbc_ne hbc_bid hInv.cidsNd ?_ hInv.bodiesNd
    intro n hn hx
    exact hfresh (bodyCids_subset_active w n hn c.cid hx)
  have hact2 : activeCids w2 = w.bodies.flatMap (bodyCids w1) := by
    rw [activeCids, gb, h1bodies, bodyCids_congr w1 w2 gs]
  -- paired-cid bookkeeping
  have hpc2 : ∀ n, pairedCids w2 n = pairedCids w1 n :=
    fun n => congrFun (pairedCids_congr w1 w2 gs) n
  have hpc1_ne : ∀ n, n ≠ bid → pairedCids w1 n = pairedCids w n := by
    intro n hn
    rw [pairedCids, pairedCids,
      collidersOf_congr w w1 n (h1shape_ne n hn).1 (h1shape_ne n hn).2]
  have hpc1_bid : pairedCids w1 bid
      = ((w.bodyOf bid).collidersCache ++ [c]).map Collider.cid := by
    rw [pairedCids, World.collidersOf, h1cache]
    rw [if_neg (by simp)]
  -- key uniqueness at w2
  have hkw1 : pairKeys w1 = pairKeys w := rfl
  have hkeys2 : pairKeys w2 = pairKeys w
      ++ ((w.bodies.filter (fun b => b ≠ bid)).flatMap (pairedCids w)).map
          (fun x => kk c.cid x) := by
    rw [gkeys, hkw1, h1bodies]
    congr 1
    have hstep1 : (w.bodies.filter (fun b => b ≠ bid)).flatMap
          (fun b' => (w1.collidersOf b').map (fun c' => pairKey c c'))
        = (w.bodies.filter (fun b => b ≠ bid)).flatMap
          (fun b' => (w.collidersOf b').map (fun c' => kk c.cid c'.cid)) := by
      apply flatMap_congr_mem
      intro b' hb'
      have hne : b' ≠ bid := by
        have := (List.mem_filter.mp hb').2
        simpa using this
      rw [collidersOf_congr w w1 b' (h1shape_ne b' hne).1 (h1shape_ne b' hne).2]
      rfl
    rw [hstep1, block_single w c.cid]
  have hT_sub : List.Sublist
      ((w.bodies.filter (fun b => b ≠ bid)).flatMap (pairedCids w))
      (activeCids w) := by
    rw [activeCids]
    exact (flatMap_sublist_pointwise (bodyCids w) (pairedCids w)
      (pairedCids_sublist_bodyCids w) _).trans
      (flatMap_sublist _ (List.filter_sublist _))
  have hkeysNd2 : (pairKeys w2).Nodup := by
    rw [hkeys2]
    have hsingle : ([c.cid].flatMap (fun u =>
          ((w.bodies.filter (fun b => b ≠ bid)).flatMap (pairedCids w)).map
            (fun x => kk u x)))
        = ((w.bodies.filter (fun b => b ≠ bid)).flatMap (pairedCids w)).map
            (fun x => kk c.cid x) := by
      simp
    have h := nodup_keys_blocks (pairKeys w) [c.cid]
        ((w.bodies.filter (fun b => b ≠ bid)).flatMap (pairedCids w))
        hInv.keysNd (List.nodup_singleton _) (hInv.cidsNd.sublist hT_sub)
        ?_ ?_
    · rw [hsingle] at h
      exact h
    · intro u hu hx
      rw [List.mem_singleton] at hu
      subst hu
      exact hfresh (hT_sub.mem hx)
    · intro k hk u hu
      rw [List.mem_singleton] at hu
      subst hu
      rcases List.mem_map.mp hk with ⟨pid, hpid, he⟩
      obtain ⟨h1, h2⟩ := keyOfAt_components w hInv pid hpid
      subst he
      exact ⟨fun hc => hfresh (hc ▸ h1), fun hc => hfresh (hc ▸ h2)⟩
  -- where each pair of w2 came from
  have hrefs2 : ∀ pid ∈ w2.pairIds,
      (pid ∈ w.pairIds ∧ w2.pairOf pid = w.pairOf pid) ∨
      (∃ b', b' ∈ w.bodies ∧ b' ≠ bid ∧ ∃ c', c' ∈ w.collidersOf b' ∧
        w2.pairOf pid = canonRec c c' bid b') := by
    intro pid hp
    rcases gdesc pid hp with hold1 | ⟨b', hb', hne, c', hc', he⟩
    · exact Or.inl ⟨hold1, gold pid hold1⟩
    · rw [collidersOf_congr w w1 b' (h1shape_ne b' hne).1 (h1shape_ne b' hne).2]
        at hc'
      exact Or.inr ⟨b', hb', hne, c', hc', he⟩
  by_cases hc0 : (w.bodyOf bid).collidersCache.length = 0
  · -- this was the first explicit shape: the default collider is retired
    have hcnil : (w.bodyOf bid).collidersCache = [] :=
      List.eq_nil_of_length_eq_zero hc0
    have hpcwbid : pairedCids w bid = [(w.bodyOf bid).defaultCollider.cid] := by
      rw [pairedCids, World.collidersOf, if_pos (by rw [hcnil]; rfl)]
      rfl
    rw [if_pos (by rw [hlen, hc0])]
    set dd := (w2.bodyOf bid).defaultCollider with hdd
    have hddcid : dd.cid = (w.bodyOf bid).defaultCollider.cid :=
      congrArg Collider.cid h2def
    obtain ⟨rb, rs, ri, rp, rnx⟩ := removePairs_spec w2 dd
    set W := removePairs w2 dd with hW
    have hWshape1 : ∀ n,
        (W.bodyOf n).collidersCache = (w1.bodyOf n).collidersCache ∧
        (W.bodyOf n).defaultCollider = (w1.bodyOf n).defaultCollider :=
      fun n => ⟨(rs n).1.trans (gs n).1, (rs n).2.trans (gs n).2⟩
    have hWbodies : W.bodies = w.bodies := rb.trans h2bodies
    have hpcW : ∀ n, n ≠ bid → pairedCids W n = pairedCids w n := by
      intro n hn
      rw [congrFun (pairedCids_congr w1 W hWshape1) n, hpc1_ne n hn]
    refine ⟨?_, ?_, ?_, ?_, ?_, ?_⟩
    · rw [hWbodies]
      exact hInv.bodiesNd
    · have : activeCids W = w.bodies.flatMap (bodyCids w1) := by
        rw [activeCids, hWbodies, bodyCids_congr w1 W hWshape1]
      rw [this]
      exact hactNd
    · rw [ri]
      exact gnd.filter _
    · intro pid hp
      rw [ri] at hp
      rw [rnx]
      exact glt pid (List.mem_filter.mp hp).1
    · intro pid hp
      rw [ri] at hp
      obtain ⟨hp2, hkeep⟩ := List.mem_filter.mp hp
      rw [Bool.not_eq_true'] at hkeep
      rcases hrefs2 pid hp2 with ⟨hmem, heq⟩ | ⟨b', hb', hne, c', hc', he⟩
      · obtain ⟨hA, hB, hne, hpa, hpb⟩ := hInv.refs pid hmem
        have hAne : (w.pairOf pid).bodyA ≠ bid := by
          intro hAeq
          rw [hAeq, hpcwbid] at hpa
          have haeq : (w.pairOf pid).a.cid = dd.cid :=
            (List.mem_singleton.mp hpa).trans hddcid.symm
          have htrue : pairTouches w2 dd pid = true := by
            rw [pairTouches, heq]
            simp [haeq]
          rw [hkeep] at htrue
          exact Bool.false_ne_true htrue
        have hBne : (w.pairOf pid).bodyB ≠ bid := by
          intro hBeq
          rw [hBeq, hpcwbid] at hpb
          have hbeq : (w.pairOf pid).b.cid = dd.cid :=
            (List.mem_singleton.mp hpb).trans hddcid.symm
          have htrue : pairTouches w2 dd pid = true := by
            rw [pairTouches, heq]
            simp [hbeq]
          rw [hkeep] at htrue
          exact Bool.false_ne_true htrue
        have hWp : W.pairOf pid = w.pairOf pid := by
          rw [rp, heq]
        rw [hWp, hWbodies, hpcW _ hAne, hpcW _ hBne]
        exact ⟨hA, hB, hne, hpa, hpb⟩
      · have hWp : W.pairOf pid = canonRec c c' bid b' := by
          rw [rp, he]
        have hcmem : c.cid ∈ pairedCids W bid := by
          rw [congrFun (pairedCids_congr w1 W hWshape1) bid, hpc1_bid,
            List.map_append]
          exact List.mem_append_right _ (by simp)
        have hcmem' : c'.cid ∈ pairedCids W b' := by
          rw [hpcW b' hne, pairedCids]
          exact List.mem_map_of_mem _ hc'
        rw [hWp, hWbodies]
        rcases canonRec_fields c c' bid b' with ⟨f1, f2, f3, f4⟩ |
          ⟨f1, f2, f3, f4⟩
        · rw [f1, f2, f3, f4]
          exact ⟨hb, hb', fun h1 => hne h1.symm, hcmem, hcmem'⟩
        · rw [f1, f2, f3, f4]
          exact ⟨hb', hb, hne, hcmem', hcmem⟩
    · have hkeysW : pairKeys W
          = (w2.pairIds.filter (fun pid => !(pairTouches w2 dd pid))).map
              (keyOfAt w2) := by
        rw [pairKeys, ri]
        apply List.map_congr_left
        intro pid hp
        rw [keyOfAt, keyOfAt, rp]
      rw [hkeysW]
      exact hkeysNd2.sublist ((List.filter_sublist _).map _)
  · -- the body already had explicit shapes: nothing is removed
    rw [if_neg (by rw [hlen]; omega)]
    have hcne : (w.bodyOf bid).collidersCache ≠ [] := by
      intro h
      exact hc0 (by rw [h]; rfl)
    have hpcwbid : pairedCids w bid
        = (w.bodyOf bid).collidersCache.map Collider.cid := by
      rw [pairedCids, World.collidersOf,
        if_neg (by simp only [List.isEmpty_iff]; exact hcne)]
    have hmono_pc : ∀ n, ∀ x, x ∈ pairedCids w n → x ∈ pairedCids w2 n := by
      intro n x hx
      rw [hpc2 n]
      by_cases hn : n = bid
      · subst hn
        rw [hpc1_bid, List.map_append]
        rw [hpcwbid] at hx
        exact List.mem_append_left _ hx
      · rw [hpc1_ne n hn]
        exact hx
    refine ⟨?_, ?_, gnd, glt, ?_, hkeysNd2⟩
    · rw [h2bodies]
      exact hInv.bodiesNd
    · rw [hact2]
      exact hactNd
    · intro pid hp
      rcases hrefs2 pid hp with ⟨hmem, heq⟩ | ⟨b', hb', hne, c', hc', he⟩
      · obtain ⟨hA, hB, hne, hpa, hpb⟩ := hInv.refs pid hmem
        rw [heq, h2bodies]
        exact ⟨hA, hB, hne, hmono_pc _ _ hpa, hmono_pc _ _ hpb⟩
      · have hcmem : c.cid ∈ pairedCids w2 bid := by
          rw [hpc2 bid, hpc1_bid, List.map_append]
          exact List.mem_append_right _ (by simp)
        have hcmem' : c'.cid ∈ pairedCids w2 b' := by
          rw [hpc2 b', hpc1_ne b' hne, pairedCids]
          exact List.mem_map_of_mem _ hc'
        rw [he, h2bodies]
        rcases canonRec_fields c c' bid b' with ⟨f1, f2, f3, f4⟩ |
          ⟨f1, f2, f3, f4⟩
        · rw [f1, f2, f3, f4]
          exact ⟨hb, hb', fun h1 => hne h1.symm, hcmem, hcmem'⟩
        · rw [f1, f2, f3, f4]
          exact ⟨hb', hb, hne, hcmem', hcmem⟩

theorem inv_removeShape (w : World) (bid : Nat) (c : Collider) (hInv : Inv w)
    (hb : bid ∈ w.bodies) (hcc : c ∈ (w.bodyOf bid).collidersCache) :
    Inv (applyOp w (.removeShapeOp bid c)) := by
  show Inv (removeCollider (w.setBody bid { w.bodyOf bid with
    collidersCache := eraseCollider (w.bodyOf bid).collidersCache c })
    (.node (some bid)) (some c))
  set w1 := w.setBody bid { w.bodyOf bid with
    collidersCache := eraseCollider (w.bodyOf bid).collidersCache c } with hw1
  have h1cache : (w1.bodyOf bid).collidersCache
      = eraseCollider (w.bodyOf bid).collidersCache c := by
    rw [hw1, bodyOf_setBody, if_pos rfl]
  have h1shape_ne : ∀ n, n ≠ bid →
      (w1.bodyOf n).collidersCache = (w.bodyOf n).collidersCache ∧
      (w1.bodyOf n).defaultCollider = (w.bodyOf n).defaultCollider := by
    intro n hn
    rw [hw1, bodyOf_setBody, if_neg hn]
    exact ⟨rfl, rfl⟩
  have h1def : ∀ n, (w1.bodyOf n).defaultCollider
      = (w.bodyOf n).defaultCollider := by
    intro n
    rw [hw1, bodyOf_setBody]
    by_cases hn : n = bid
    · rw [if_pos hn, hn]
    · rw [if_neg hn]
  have hbody1 : bid ∈ w1.bodies := hb
  show Inv (if bid ∈ w1.bodies then
      (if ((removePairs w1 c).bodyOf bid).collidersCache.length = 0 then
        addCollider (removePairs w1 c) (.node (some bid))
          ((removePairs w1 c).bodyOf bid).defaultCollider
      else removePairs w1 c)
    else w1)
  rw [if_pos hbody1]
  obtain ⟨rb, rs, ri, rp, rnx⟩ := removePairs_spec w1 c
  set w2 := removePairs w1 c with hw2
  have h2bodies : w2.bodies = w.bodies := rb
  have h2cache : (w2.bodyOf bid).collidersCache
      = eraseCollider (w.bodyOf bid).collidersCache c := (rs bid).1.trans h1cache
  have h2nd : w2.pairIds.Nodup := by
    rw [ri]
    exact hInv.pidsNd.filter _
  have h2lt : ∀ pid ∈ w2.pairIds, pid < w2.nextPairId := by
    intro pid hp
    rw [ri] at hp
    rw [rnx]
    exact hInv.pidsLt pid (List.mem_filter.mp hp).1
  have hmem2 : ∀ pid, pid ∈ w2.pairIds →
      pid ∈ w.pairIds ∧ pairTouches w c pid = false := by
    intro pid hp
    rw [ri, List.mem_filter] at hp
    refine ⟨hp.1, ?_⟩
    have h2 := hp.2
    rw [Bool.not_eq_true'] at h2
    exact h2
  -- collider-id bookkeeping: everything shrinks
  have hbc_ne : ∀ n, n ≠ bid → bodyCids w1 n = bodyCids w n := by
    intro n hn
    rw [bodyCids, bodyCids, (h1shape_ne n hn).1, (h1shape_ne n hn).2]
  have hbc1_sub : List.Sublist (bodyCids w1 bid) (bodyCids w bid) := by
    rw [bodyCids, bodyCids, h1cache, h1def bid]
    exact List.Sublist.cons₂ _ ((List.eraseP_sublist _).map _)
  have hact1_sub : List.Sublist (w.bodies.flatMap (bodyCids w1))
      (activeCids w) := by
    rw [activeCids]
    refine flatMap_sublist_pointwise (bodyCids w) (bodyCids w1) ?_ _
    intro b
    by_cases hn : b = bid
    · subst hn
      exact hbc1_sub
    · rw [hbc_ne b hn]
  have hpc1_ne : ∀ n, n ≠ bid → pairedCids w1 n = pairedCids w n := by
    intro n hn
    rw [pairedCids, pairedCids,
      collidersOf_congr w w1 n (h1shape_ne n hn).1 (h1shape_ne n hn).2]
  have hcne : (w.bodyOf bid).collidersCache ≠ [] := List.ne_nil_of_mem hcc
  have hpcwbid : pairedCids w bid
      = (w.bodyOf bid).collidersCache.map Collider.cid := by
    rw [pairedCids, World.collidersOf,
      if_neg (by simp only [List.isEmpty_iff]; exact hcne)]
  have hcol2 : ∀ b', b' ≠ bid → w2.collidersOf b' = w.collidersOf b' := by
    intro b' hn
    rw [collidersOf_congr w1 w2 b' (rs b').1 (rs b').2,
      collidersOf_congr w w1 b' (h1shape_ne b' hn).1 (h1shape_ne b' hn).2]
  -- the surviving keys stay distinct
  have hkeysw2eq : pairKeys w2
      = (w.pairIds.filter (fun pid => !(pairTouches w1 c pid))).map
          (keyOfAt w) := by
    rw [pairKeys, ri]
    apply List.map_congr_left
    intro pid hp
    rw [keyOfAt, keyOfAt, rp]
    rfl
  have hkeysNd2 : (pairKeys w2).Nodup := by
    rw [hkeysw2eq]
    exact hInv.keysNd.sublist ((List.filter_sublist _).map _)
  by_cases hlen0 : (eraseCollider (w.bodyOf bid).collidersCache c).length = 0
  · -- the last explicit shape was removed: the default collider comes back
    have hernil : eraseCollider (w.bodyOf bid).collidersCache c = [] :=
      List.eq_nil_of_length_eq_zero hlen0
    have hlenShrink : (eraseCollider (w.bodyOf bid).collidersCache c).length
        = (w.bodyOf bid).collidersCache.length - 1 :=
      List.length_eraseP_of_mem hcc (by simp)
    have hpos : 0 < (w.bodyOf bid).collidersCache.length :=
      List.length_pos.mpr hcne
    have hlen1 : (w.bodyOf bid).collidersCache.length = 1 := by omega
    have hcsingle : (w.bodyOf bid).collidersCache = [c] := by
      obtain ⟨a, ha⟩ := List.length_eq_one.mp hlen1
      rw [ha] at hcc ⊢
      rw [List.mem_singleton] at hcc
      rw [hcc]
    have hpcwbid2 : pairedCids w bid = [c.cid] := by
      rw [hpcwbid, hcsingle]
      rfl
    rw [if_pos (by rw [h2cache]; exact hlen0)]
    set dd := (w2.bodyOf bid).defaultCollider with hdd
    have h2def : dd = (w.bodyOf bid).defaultCollider :=
      (rs bid).2.trans (h1def bid)
    have hddbodymem : dd.cid ∈ bodyCids w bid := by
      rw [congrArg Collider.cid h2def, bodyCids]
      exact List.mem_cons_self _ _
    have hsurv : ∀ pid ∈ w.pairIds, pairTouches w c pid = false →
        (w.pairOf pid).bodyA ≠ bid ∧ (w.pairOf pid).bodyB ≠ bid ∧
        (w.pairOf pid).a.cid ≠ dd.cid ∧ (w.pairOf pid).b.cid ≠ dd.cid := by
      intro pid hpw hnt
      obtain ⟨hA, hB, hne, hpa, hpb⟩ := hInv.refs pid hpw
      have hAne : (w.pairOf pid).bodyA ≠ bid := by
        intro hAeq
        rw [hAeq, hpcwbid2] at hpa
        rw [pairTouches] at hnt
        rw [List.mem_singleton.mp hpa] at hnt
        simp at hnt
      have hBne : (w.pairOf pid).bodyB ≠ bid := by
        intro hBeq
        rw [hBeq, hpcwbid2] at hpb
        rw [pairTouches] at hnt
        rw [List.mem_singleton.mp hpb] at hnt
        simp at hnt
      refine ⟨hAne, hBne, ?_, ?_⟩
      · intro hceq
        apply hAne
        have hmm : (w.pairOf pid).a.cid ∈ bodyCids w bid := by
          rw [hceq]
          exact hddbodymem
        exact cid_owner_unique w hInv.cidsNd _ bid hA hb _
          (pairedCids_subset_bodyCids _ _ _ hpa) hmm
      · intro hceq
        apply hBne
        have hmm : (w.pairOf pid).b.cid ∈ bodyCids w bid := by
          rw [hceq]
          exact hddbodymem
        exact cid_owner_unique w hInv.cidsNd _ bid hB hb _
          (pairedCids_subset_bodyCids _ _ _ hpb) hmm
    have hbody2 : bid ∈ w2.bodies := by
      rw [h2bodies]
      exact hb
    show Inv (if bid ∈ w2.bodies then
        (if ((addPairs w2 dd bid).bodyOf bid).collidersCache.length = 1 then
          removePairs (addPairs w2 dd bid)
            ((addPairs w2 dd bid).bodyOf bid).defaultCollider
        else addPairs w2 dd bid)
      else w2)
    rw [if_pos hbody2, addPairs]
    obtain ⟨gb3, gs3, gnd3, glt3, gmono3, gold3, gkeys3, gdesc3⟩ :=
      addPairsGo_spec dd bid w2.bodies w2 h2nd h2lt
    set w3 := addPairsGo w2 dd bid w2.bodies with hw3
    have hc3 : (w3.bodyOf bid).collidersCache
        = eraseCollider (w.bodyOf bid).collidersCache c :=
      (gs3 bid).1.trans h2cache
    rw [if_neg (by rw [hc3, hernil]; simp)]
    have h3bodies : w3.bodies = w.bodies := gb3.trans h2bodies
    have h3shape : ∀ n,
        (w3.bodyOf n).collidersCache = (w1.bodyOf n).collidersCache ∧
        (w3.bodyOf n).defaultCollider = (w1.bodyOf n).defaultCollider :=
      fun n => ⟨(gs3 n).1.trans (rs n).1, (gs3 n).2.trans (rs n).2⟩
    have hpc3 : ∀ n, pairedCids w3 n = pairedCids w1 n :=
      fun n => congrFun (pairedCids_congr w1 w3 h3shape) n
    have hpc1_bidA : pairedCids w1 bid
        = [(w.bodyOf bid).defaultCollider.cid] := by
      rw [pairedCids, World.collidersOf, h1cache,
        if_pos (by rw [hernil]; rfl), h1def bid]
      rfl
    have hpcW3 : ∀ n, n ≠ bid → pairedCids w3 n = pairedCids w n := by
      intro n hn
      rw [hpc3 n, hpc1_ne n hn]
    refine ⟨?_, ?_, gnd3, glt3, ?_, ?_⟩
    · rw [h3bodies]
      exact hInv.bodiesNd
    · have : activeCids w3 = w.bodies.flatMap (bodyCids w1) := by
        rw [activeCids, h3bodies, bodyCids_congr w1 w3 h3shape]
      rw [this]
      exact hInv.cidsNd.sublist hact1_sub
    · intro pid hp
      rcases gdesc3 pid hp with hpold | ⟨b', hb', hne, c', hc', he⟩
      · obtain ⟨hpw, hnt⟩ := hmem2 pid hpold
        obtain ⟨hAne, hBne, _, _⟩ := hsurv pid hpw hnt
        obtain ⟨hA, hB, hne, hpa, hpb⟩ := hInv.refs pid hpw
        have h3p : w3.pairOf pid = w.pairOf pid :=
          (gold3 pid hpold).trans (congrFun rp pid)
        rw [h3p, h3bodies, hpcW3 _ hAne, hpcW3 _ hBne]
        exact ⟨hA, hB, hne, hpa, hpb⟩
      · have hb'w : b' ∈ w.bodies := by
          rw [← h2bodies]
          exact hb'
        rw [hcol2 b' hne] at hc'
        have hddmem : dd.cid ∈ pairedCids w3 bid := by
          rw [hpc3 bid, hpc1_bidA, congrArg Collider.cid h2def]
          exact List.mem_singleton.mpr rfl
        have hcmem' : c'.cid ∈ pairedCids w3 b' := by
          rw [hpcW3 b' hne, pairedCids]
          exact List.mem_map_of_mem _ hc'
        rw [he, h3bodies]
        rcases canonRec_fields dd c' bid b' with ⟨f1, f2, f3, f4⟩ |
          ⟨f1, f2, f3, f4⟩
        · rw [f1, f2, f3, f4]
          exact ⟨hb, hb'w, fun h1 => hne h1.symm, hddmem, hcmem'⟩
        · rw [f1, f2, f3, f4]
          exact ⟨hb'w, hb, hne, hcmem', hddmem⟩
    · have hkeys3 : pairKeys w3 = pairKeys w2
          ++ ((w.bodies.filter (fun b => b ≠ bid)).flatMap (pairedCids w)).map
              (fun x => kk dd.cid x) := by
        rw [gkeys3, h2bodies]
        congr 1
        have hstep1 : (w.bodies.filter (fun b => b ≠ bid)).flatMap
              (fun b' => (w2.collidersOf b').map (fun c' => pairKey dd c'))
            = (w.bodies.filter (fun b => b ≠ bid)).flatMap
              (fun b' => (w.collidersOf b').map
                (fun c' => kk dd.cid c'.cid)) := by
          apply flatMap_congr_mem
          intro b' hb'
          have hne : b' ≠ bid := by
            have := (List.mem_filter.mp hb').2
            simpa using this
          rw [hcol2 b' hne]
          rfl
        rw [hstep1, block_single w dd.cid]
      have hT_sub : List.Sublist
          ((w.bodies.filter (fun b => b ≠ bid)).flatMap (pairedCids w))
          (activeCids w) := by
        rw [activeCids]
        exact (flatMap_sublist_pointwise (bodyCids w) (pairedCids w)
          (pairedCids_sublist_bodyCids w) _).trans
          (flatMap_sublist _ (List.filter_sublist _))
      rw [hkeys3]
      have hsingle : ([dd.cid].flatMap (fun u =>
            ((w.bodies.filter (fun b => b ≠ bid)).flatMap (pairedCids w)).map
              (fun x => kk u x)))
          = ((w.bodies.filter (fun b => b ≠ bid)).flatMap (pairedCids w)).map
              (fun x => kk dd.cid x) := by
        simp
      have h := nodup_keys_blocks (pairKeys w2) [dd.cid]
          ((w.bodies.filter (fun b => b ≠ bid)).flatMap (pairedCids w))
          hkeysNd2 (List.nodup_singleton _) (hInv.cidsNd.sublist hT_sub)
          ?_ ?_
      · rw [hsingle] at h
        exact h
      · intro u hu hx
        rw [List.mem_singleton] at hu
        subst hu
        rcases List.mem_flatMap.mp hx with ⟨b', hb', hxb⟩
        have hb'mem : b' ∈ w.bodies := (List.mem_filter.mp hb').1
        have hb'ne : b' ≠ bid := by
          have := (List.mem_filter.mp hb').2
          simpa using this
        exact hb'ne (cid_owner_unique w hInv.cidsNd b' bid hb'mem hb dd.cid
          (pairedCids_subset_bodyCids w b' _ hxb) hddbodymem)
      · intro k hk u hu
        rw [List.mem_singleton] at hu
        subst hu
        rw [hkeysw2eq] at hk
        rcases List.mem_map.mp hk with ⟨pid, hpid, he⟩
        have hpw := (List.mem_filter.mp hpid).1
        have hnt : pairTouches w c pid = false := by
          have h2 := (List.mem_filter.mp hpid).2
          rw [Bool.not_eq_true'] at h2
          exact h2
        obtain ⟨_, _, hA3, hB3⟩ := hsurv pid hpw hnt
        subst he
        constructor
        · intro hc1
          rcases (kk_mentions (w.pairOf pid).a.cid (w.pairOf pid).b.cid
              dd.cid).mp (Or.inl hc1) with h | h
          · exact hA3 h.symm
          · exact hB3 h.symm
        · intro hc2
          rcases (kk_mentions (w.pairOf pid).a.cid (w.pairOf pid).b.cid
              dd.cid).mp (Or.inr hc2) with h | h
          · exact hA3 h.symm
          · exact hB3 h.symm
  · -- other explicit shapes remain: only the collider's pairs disappear
    rw [if_neg (by rw [h2cache]; exact hlen0)]
    have herne : eraseCollider (w.bodyOf bid).collidersCache c ≠ [] := by
      intro hnil
      exact hlen0 (by rw [hnil]; rfl)
    have hmono : ∀ n x, x ∈ pairedCids w n → x ≠ c.cid →
        x ∈ pairedCids w2 n := by
      intro n x hx hxne
      rw [congrFun (pairedCids_congr w1 w2 rs) n]
      by_cases hn : n = bid
      · subst hn
        rw [hpcwbid] at hx
        rw [pairedCids, World.collidersOf, h1cache,
          if_neg (by simp only [List.isEmpty_iff]; exact herne)]
        exact mem_eraseCollider c x _ hx hxne
      · rw [hpc1_ne n hn]
        exact hx
    refine ⟨?_, ?_, h2nd, h2lt, ?_, hkeysNd2⟩
    · rw [h2bodies]
      exact hInv.bodiesNd
    · have : activeCids w2 = w.bodies.flatMap (bodyCids w1) := by
        rw [activeCids, h2bodies, bodyCids_congr w1 w2 rs]
      rw [this]
      exact hInv.cidsNd.sublist hact1_sub
    · intro pid hp
      obtain ⟨hpw, hnt⟩ := hmem2 pid hp
      obtain ⟨hA, hB, hne, hpa, hpb⟩ := hInv.refs pid hpw
      have hnc : ¬((w.pairOf pid).a.cid = c.cid) ∧
          ¬((w.pairOf pid).b.cid = c.cid) := by
        rw [pairTouches] at hnt
        simpa using hnt
      have h2p : w2.pairOf pid = w.pairOf pid := congrFun rp pid
      rw [h2p, h2bodies]
      exact ⟨hA, hB, hne, hmono _ _ hpa hnc.1, hmono _ _ hpb hnc.2⟩

theorem inv_applyOp (w : World) (op : Op) (hInv : Inv w) (hv : ValidOp w op) :
    Inv (applyOp w op) := by
  cases op with
  | addBodyOp bid =>
    obtain ⟨h1, h2, h3⟩ := hv
    exact inv_addBody w bid hInv h1 h2 h3
  | removeBodyOp bid => exact inv_removeBody w bid hInv hv
  | addShapeOp bid c =>
    obtain ⟨h1, h2⟩ := hv
    exact inv_addShape w bid c hInv h1 h2
  | removeShapeOp bid c =>
    obtain ⟨h1, h2⟩ := hv
    exact inv_removeShape w bid c hInv h1 h2

theorem inv_applyOps : ∀ (ops : List Op) (w : World), Inv w → ValidSeq w ops →
    Inv (applyOps w ops)
  | [], _, hInv, _ => hInv
  | op :: rest, w, hInv, hv =>
    inv_applyOps rest (applyOp w op) (inv_applyOp w op hInv hv.1) hv.2

theorem inv_empty (cfg : Nat → Body) : Inv (emptyWorld cfg) :=
  ⟨List.nodup_nil, List.nodup_nil, List.nodup_nil,
   fun pid hp => absurd hp (List.not_mem_nil pid),
   fun pid hp => absurd hp (List.not_mem_nil pid),
   List.nodup_nil⟩

/-- C1 (amended): the unrestricted claim is false (see the double-add
counterexample), but under the spec's own preconditions on the registry
operations it holds.  For every operation sequence from the empty registry in
which a body is added only while inactive (with distinct collider ids that
are globally fresh), removed only while active, a shape is attached to an
active body under a fresh collider id and detached only while it is one of
that body's explicit shapes, the registry keeps at most one maintained pair
per unordered shape combination, and no pair joins two shapes of the same
body. -/
theorem pair_registry_unique_no_self (cfg : Nat → Body) (ops : List Op)
    (h : ValidSeq (emptyWorld cfg) ops) :
    PairsUnique (applyOps (emptyWorld cfg) ops) ∧
    NoSelfPairs (applyOps (emptyWorld cfg) ops) := by
  have hInv := inv_applyOps ops (emptyWorld cfg) (inv_empty cfg) h
  exact ⟨hInv.keysNd, inv_noSelfPairs _ hInv⟩

theorem pair_registry_unique_no_self_w :
    ValidSeq (emptyWorld cfgDemo)
      [.addBodyOp 1, .addBodyOp 2, .addShapeOp 1 ⟨5, .box 0 0 4 4⟩,
       .removeShapeOp 1 ⟨5, .box 0 0 4 4⟩, .removeBodyOp 2] ∧
    (PairsUnique (applyOps (emptyWorld cfgDemo)
        [.addBodyOp 1, .addBodyOp 2, .addShapeOp 1 ⟨5, .box 0 0 4 4⟩,
         .removeShapeOp 1 ⟨5, .box 0 0 4 4⟩, .removeBodyOp 2]) ∧
      NoSelfPairs (applyOps (emptyWorld cfgDemo)
        [.addBodyOp 1, .addBodyOp 2, .addShapeOp 1 ⟨5, .box 0 0 4 4⟩,
         .removeShapeOp 1 ⟨5, .box 0 0 4 4⟩, .removeBodyOp 2])) :=
  ⟨by decide, pair_registry_unique_no_self cfgDemo
    [.addBodyOp 1, .addBodyOp 2, .addShapeOp 1 ⟨5, .box 0 0 4 4⟩,
     .removeShapeOp 1 ⟨5, .box 0 0 4 4⟩, .removeBodyOp 2] (by decide)⟩

end Black
